import Mathlib

/-!
Verification development for `corintick/serialization.py`, the
serialization/compression core of the corintick timeseries store.

The Python source is shallowly embedded: DataFrames become an explicit
`DF` structure (a time index plus named, dtyped columns, stored row-wise),
BSON documents become the `Doc` structure, and each Python function from
the source becomes a Lean function of the same name (camel-cased).
Exceptions become `Except Err` results.

External collaborators of the source are modelled by concrete executable
functions, faithful to their documented behaviour at the level the source
relies on:
* `np.save` / `np.load`: a self-describing binary layout embedding the
  dtype tag and element count followed by 8-byte little-endian cells
  (the real `.npy` header is ~128 bytes of text; here it is a compact
  binary header — only its self-description and its length arithmetic
  matter to the source).
* `lz4.block.compress` / `decompress`: a deterministic lossless block
  transform carrying a 4-byte little-endian uncompressed-size header, as
  the real binding does; the body is kept verbatim (an identity-rate
  compressor), which is a legal deterministic compressor.
* `hashlib.sha1`: a deterministic fixed-range digest model (`sha1model`).
* float64 cells are modelled as 64-bit patterns that are either an
  integer value or the canonical NaN pattern (`Val.vNaN`); this is the
  only float behaviour the source's claims exercise (NaN fill produced
  by `pd.concat` on mismatched schemas).
-/

set_option maxRecDepth 4000

attribute [local semireducible] Rat.mul Rat.add Rat.sub Rat.inv

namespace Corintick

/-- MAX_BSON_SIZE = 2 ** 24 from the source. -/
def MAX_BSON_SIZE : Nat := 2 ^ 24

/-- A cell value of a DataFrame column: an int64-representable integer or
the float64 NaN pattern (the only non-integer value the source's data flow
can produce, via `pd.concat` NaN fill). -/
inductive Val where
  | vInt (z : Int)
  | vNaN
deriving DecidableEq, Repr

/-- The 64-bit pattern of the canonical float64 NaN (0x7FF8000000000000),
used to model NaN cells inside a serialized float64 column. -/
def nanBits : Nat := 9221120237041090560

/-- Little-endian 8-byte encoding of a natural number below 2^64 (one
int64/float64/datetime64 cell in the `np.save` payload). -/
def le64 (n : Nat) : List Nat :=
  [n % 256, n / 256 % 256, n / 65536 % 256, n / 16777216 % 256,
   n / 4294967296 % 256, n / 1099511627776 % 256,
   n / 281474976710656 % 256, n / 72057594037927936 % 256]

/-- Decode of `le64` (0 on malformed input). -/
def deLe64 : List Nat → Nat
  | [b0, b1, b2, b3, b4, b5, b6, b7] =>
      b0 + 256 * b1 + 65536 * b2 + 16777216 * b3 + 4294967296 * b4 +
        1099511627776 * b5 + 281474976710656 * b6 + 72057594037927936 * b7
  | _ => 0

/-- Little-endian 4-byte encoding (the uncompressed-size header the
`lz4.block` format prepends). -/
def le32 (n : Nat) : List Nat :=
  [n % 256, n / 256 % 256, n / 65536 % 256, n / 16777216 % 256]

/-- Decode of `le32` (0 on malformed input). -/
def deLe32 : List Nat → Nat
  | [b0, b1, b2, b3] => b0 + 256 * b1 + 65536 * b2 + 16777216 * b3
  | _ => 0

/-- Serialized bytes of one cell: the two's-complement int64 pattern of an
integer, or the NaN pattern. -/
def valBytes : Val → List Nat
  | .vInt z => le64 ((z % (2 ^ 64 : Int)).toNat)
  | .vNaN => le64 nanBits

/-- Decode one 8-byte cell, directed by the column dtype: in a float64
column the NaN pattern decodes to NaN, otherwise patterns are read as
two's-complement int64. -/
def bytesToVal (dt : String) (b : List Nat) : Val :=
  let m := deLe64 b
  if dt == "float64" && m == nanBits then .vNaN
  else .vInt (if m < 2 ^ 63 then (m : Int) else (m : Int) - 2 ^ 64)

/-- Split a byte list into 8-byte cells (a trailing incomplete cell is
kept as-is; decoded payloads always have multiple-of-8 length). -/
def chunk8 : List Nat → List (List Nat)
  | [] => []
  | b0 :: b1 :: b2 :: b3 :: b4 :: b5 :: b6 :: b7 :: rest =>
      [b0, b1, b2, b3, b4, b5, b6, b7] :: chunk8 rest
  | l => [l]

/-- Decode a payload of 8-byte cells. -/
def decodeVals (dt : String) (payload : List Nat) : List Val :=
  (chunk8 payload).map (bytesToVal dt)

/-- Byte sequence of a dtype tag string (model of the dtype descriptor
text embedded in the `.npy` header). -/
def strBytes (s : String) : List Nat := s.data.map Char.toNat

/-- String recovered from dtype descriptor bytes. -/
def strOf (bytes : List Nat) : String := ⟨bytes.map Char.ofNat⟩

/-- Model of `np.save` to an in-memory buffer: a magic byte, the
NUL-terminated dtype tag, the 8-byte element count, then the cells. -/
def npySave (dt : String) (vals : List Val) : List Nat :=
  147 :: (strBytes dt ++ 0 :: (le64 vals.length ++ (vals.map valBytes).flatten))

/-- Model of `np.load`: parse the self-describing layout back; `none`
when the layout descriptor does not match the payload. -/
def npyLoad (b : List Nat) : Option (String × List Val) :=
  match b with
  | 147 :: rest =>
    let dtBytes := rest.takeWhile (fun x => x ≠ 0)
    match rest.dropWhile (fun x => x ≠ 0) with
    | 0 :: rest2 =>
      if rest2.length < 8 then none
      else
        let n := deLe64 (rest2.take 8)
        let payload := rest2.drop 8
        if payload.length = 8 * n then
          some (strOf dtBytes, decodeVals (strOf dtBytes) payload)
        else none
    | _ => none
  | _ => none

/-- Model of `lz4.block.compress(mode=high_compression)`: deterministic,
lossless, prepends the 4-byte little-endian uncompressed size (as the
real binding's block format does). -/
def lz4compress (b : List Nat) : List Nat := le32 b.length ++ b

/-- Model of `lz4.block.decompress`: strip and check the size header;
`none` when the stream does not decompress to the declared size. -/
def lz4decompress (b : List Nat) : Option (List Nat) :=
  if b.length < 4 then none
  else
    let n := deLe32 (b.take 4)
    let body := b.drop 4
    if body.length = n then some body else none

/-- `_serialize_array` from the source: numpy-serialize then compress. -/
def serializeArr (dt : String) (vals : List Val) : List Nat :=
  lz4compress (npySave dt vals)

/-- `_deserialize_array` from the source: decompress then numpy-load;
`none` models the decode-time exceptions (corrupt encoding). -/
def deserializeArr (data : List Nat) : Option (String × List Val) :=
  (lz4decompress data).bind npyLoad

/-- Model of `hashlib.sha1(...).digest()`: a deterministic digest of the
compressed bytes with a fixed 160-bit output range. -/
def sha1model (b : List Nat) : Nat :=
  b.foldl (fun a x => (a * 257 + x + 1) % (2 ^ 160)) 0

/-- A metadata value (`Any BSON-able objects` in the source; the derived
fields are ints, caller values are modelled as ints or strings). -/
inductive MVal where
  | mInt (z : Int)
  | mStr (s : String)
deriving DecidableEq, Repr

/-- A caller metadata mapping, as the ordered key/value list of a Python
dict (keys assumed unique, as in a dict). -/
abbrev Meta := List (String × MVal)

/-- Python `{**a, **b}` dict union: keys of `a` in order with values
overridden by `b` where present, then the keys of `b` not in `a`. -/
def pyDictUnion (a b : Meta) : Meta :=
  a.map (fun p => (p.1, (((b.find? (fun q => q.1 == p.1)).map Prod.snd).getD p.2))) ++
    b.filter (fun q => !(a.any (fun p => p.1 == q.1)))

/-- Lookup in a metadata mapping (Python `d[k]`, as an `Option`). -/
def dictGet (m : Meta) (k : String) : Option MVal :=
  (m.find? (fun p => p.1 == k)).map Prod.snd

/-- One row of a DataFrame: the index (time) value and the cells, one per
column. Timestamps are the int64 nanosecond values of `datetime64[ns]`. -/
abbrev Row := Int × List Val

/-- Shallow embedding of the `pd.DataFrame` objects the source handles:
the index kind (is it a `DatetimeIndex`), the named and dtyped columns in
order, and the rows. -/
structure DF where
  isDatetime : Bool
  cols : List (String × String)
  rows : List Row
deriving DecidableEq, Repr

/-- Column names of a DataFrame, in order (`df.columns`). -/
def DF.names (df : DF) : List String := df.cols.map Prod.fst

/-- `df.memory_usage().sum()`: 8 bytes per index entry plus 8 bytes per
cell (datetime64/int64/float64 are all 8-byte dtypes). -/
def memUsage (df : DF) : Nat := 8 * df.rows.length * (1 + df.cols.length)

/-- Row order used by the sorts of the source: ascending on the index
value. `df.sort_index(ascending=True)` and the final `df.sort_index()` of
`build_dataframe` are modelled as this stable ascending sort (pandas'
default sort kind leaves the order of tied index values unspecified; the
model fixes the stable realization). -/
def rowLe (a b : Row) : Prop := a.1 ≤ b.1

instance : DecidableRel rowLe := fun a b => inferInstanceAs (Decidable (a.1 ≤ b.1))

instance : IsTotal Row rowLe := ⟨fun a b => Int.le_total a.1 b.1⟩

instance : IsTrans Row rowLe := ⟨fun _ _ _ h h2 => le_trans h h2⟩

/-- Stable ascending sort of the rows by index value. -/
def sortRows (l : List Row) : List Row := l.insertionSort rowLe

/-- `df.sort_index(ascending=True)` (returns a new frame). -/
def sortDF (df : DF) : DF := { df with rows := sortRows df.rows }

/-- `re.sub(r., , str(x))` of the source: remove every literal dot from a
column name. -/
def removeDots (s : String) : String := ⟨s.data.filter (fun c => c ≠ '.')⟩

/-- `df.rename(columns=f)` (returns a new frame; values untouched). -/
def renameCols (f : String → String) (df : DF) : DF :=
  { df with cols := df.cols.map (fun p => (f p.1, p.2)) }

/-- Values of column `name` (`df[name].values`): the cells at the first
position bearing that name (pandas label lookup; unique labels assumed by
the callers, see `DF.wf`). -/
def colVals (df : DF) (name : String) : List Val :=
  df.rows.map (fun r => r.2.getD (df.cols.findIdx (fun p => p.1 == name)) (.vInt 0))

/-- Dtype tag of column `name` (`str(df[name].dtype)`). -/
def dtypeOf (df : DF) (name : String) : String :=
  (((df.cols.find? (fun p => p.1 == name)).map Prod.snd).getD "")

/-- One column's on-disk representation (the dict built by
`_make_bson_column`): compressed blob, dtype tag, digest, byte length. -/
structure ColRec where
  data : List Nat
  dtype : String
  sha1 : Nat
  size : Nat
deriving DecidableEq, Repr

/-- `_make_bson_column` from the source. -/
def makeBsonColumn (dt : String) (vals : List Val) : ColRec :=
  let data := serializeArr dt vals
  { data := data, dtype := dt, sha1 := sha1model data, size := data.length }

/-- The BSON document of `_make_bson_doc` (a `SON`). `endv` stands for the
source's `end` field (a Lean keyword). -/
structure Doc where
  uid : String
  start : Int
  endv : Int
  metadata : Meta
  index : ColRec
  columns : List (String × ColRec)
deriving DecidableEq, Repr

/-- Assignment into a `SON` (ordered dict): overwrite in place when the
key exists, else append. -/
def sonInsert (acc : List (String × ColRec)) (k : String) (v : ColRec) :
    List (String × ColRec) :=
  if acc.any (fun p => p.1 == k) then
    acc.map (fun p => if p.1 == k then (k, v) else p)
  else acc ++ [(k, v)]

/-- Lookup in a `SON` (`columns[col]`; the callers only look up present
keys, absent keys yield a dummy record). -/
def sonGet (acc : List (String × ColRec)) (k : String) : ColRec :=
  (((acc.find? (fun p => p.1 == k)).map Prod.snd).getD ⟨[], "", 0, 0⟩)

/-- Errors of the embedded source, one constructor per Python exception
site. `checksumMismatch` belongs to the design's error taxonomy and is
included so that its absence from every code path is statable. -/
inductive Err where
  | invalidIndex
  | invalidBSON (binarySize : Nat) (ratio : ℚ)
  | indexError
  | arraySplitError
  | recursionError
  | assertionError
  | corruptEncoding
  | concatError
  | dataLengthMismatch
  | checksumMismatch
deriving DecidableEq, Repr

/-- The index `ColRec` built at line 83 of the source
(`_make_bson_column(df.index)`), on the sorted, renamed frame. -/
def idxColumn (df : DF) : ColRec :=
  makeBsonColumn "datetime64[ns]" (df.rows.map (fun r => Val.vInt r.1))

/-- The `columns` SON built by the loop at lines 84-86 of the source, on
the sorted, renamed frame. -/
def sonColumns (df : DF) : List (String × ColRec) :=
  df.names.foldl
    (fun acc name => sonInsert acc name (makeBsonColumn (dtypeOf df name) (colVals df name)))
    []

/-- `binary_size` as computed at lines 89-90 of the source: the sizes of
the columns looked up over `df.columns`, plus the index size. -/
def binSizeOf (df : DF) : Nat :=
  df.names.foldl (fun s name => s + (sonGet (sonColumns df) name).size) 0 + (idxColumn df).size

/-- `_make_bson_doc(uid, df, metadata)` from the source, statement by
statement. Failure notes: a non-`DatetimeIndex` index raises
`ValueError` (`invalidIndex`); an oversized binary raises
`InvalidBSON(msg, compression_ratio)` where the message carries
`binary_size` (`invalidBSON binary_size ratio`); on a zero-row frame
`df.index[0]` raises `IndexError` (for such a frame `mem_usage` is 0 and
numpy division warns and yields infinity without raising; the model's
rational `ratio` is then the unused value 0). -/
def makeBsonDoc (uid : String) (df : DF) (meta : Meta) : Except Err Doc :=
  if df.isDatetime = false then .error .invalidIndex
  else
    let memU := memUsage df
    let dfr := renameCols removeDots (sortDF df)
    let index := idxColumn dfr
    let columns := sonColumns dfr
    let nrows := dfr.rows.length
    let binSize := binSizeOf dfr
    let ratio : ℚ := (binSize : ℚ) / (memU : ℚ)
    if (binSize : ℚ) > (95 / 100) * (MAX_BSON_SIZE : ℚ) then .error (.invalidBSON binSize ratio)
    else
      match dfr.rows with
      | [] => .error .indexError
      | r0 :: rest =>
        .ok { uid := uid
              start := r0.1
              endv := (rest.getLastD r0).1
              metadata := pyDictUnion meta [("nrows", .mInt nrows), ("binary_size", .mInt binSize)]
              index := index
              columns := columns }

/-- `df.sort_index(ascending=True)` as a call on a frame object: the pair
is (returned new frame, the receiver after the call). With the source's
default `inplace=False` the receiver is returned unchanged. -/
def sortIndexOp (df : DF) : DF × DF := (sortDF df, df)

/-- `df.rename(columns=f)` as a call on a frame object (default
`inplace=False`: fresh result, receiver unchanged). -/
def renameColsOp (f : String → String) (df : DF) : DF × DF := (renameCols f df, df)

/-- `df.memory_usage().sum()` as a call on a frame object (read-only). -/
def memUsageOp (df : DF) : Nat × DF := (memUsage df, df)

/-- `_make_bson_doc` with the caller's frame object threaded explicitly:
the second component of the result is the object the caller passed in,
as it stands when the call returns or raises. The two pandas calls that
receive the caller's object (`memory_usage` and `sort_index`) are
modelled by their `...Op` forms, which return the receiver after the
call; the source's local name `df` is then rebound to the fresh sorted
frame, so the later `rename` acts on that copy only. -/
def makeBsonDocTracked (uid : String) (dfArg : DF) (meta : Meta) : Except Err Doc × DF :=
  if dfArg.isDatetime = false then (.error .invalidIndex, dfArg)
  else
    let memUp := memUsageOp dfArg
    let memU := memUp.1
    let sp := sortIndexOp memUp.2
    let df1 := sp.1
    let callerObj := sp.2
    let rp := renameColsOp removeDots df1
    let df2 := rp.1
    let index := idxColumn df2
    let columns := sonColumns df2
    let nrows := df2.rows.length
    let binSize := binSizeOf df2
    let ratio : ℚ := (binSize : ℚ) / (memU : ℚ)
    if (binSize : ℚ) > (95 / 100) * (MAX_BSON_SIZE : ℚ) then
      (.error (.invalidBSON binSize ratio), callerObj)
    else
      match df2.rows with
      | [] => (.error .indexError, callerObj)
      | r0 :: rest =>
        (.ok { uid := uid
               start := r0.1
               endv := (rest.getLastD r0).1
               metadata := pyDictUnion meta [("nrows", .mInt nrows), ("binary_size", .mInt binSize)]
               index := index
               columns := columns }, callerObj)

/-- Sizes of the `n` parts `np.array_split` makes of a length-`l`
sequence: the first `l % n` parts get `l / n + 1` elements, the rest get
`l / n`. -/
def splitSizes (l n : Nat) : List Nat :=
  (List.range n).map (fun i => if i < l % n then l / n + 1 else l / n)

/-- Cut a row list into consecutive chunks of the given sizes. -/
def takeChunks : List Nat → List Row → List (List Row)
  | [], _ => []
  | s :: ss, rs => rs.take s :: takeChunks ss (rs.drop s)

/-- The inner `split_dataframes(large_df, size)` of `make_bson_docs`:
`np.array_split(large_df, np.ceil(mem_usage / size))`. `np.array_split`
raises `ValueError` when the number of sections is not positive. -/
def splitDataframes (df : DF) (size : ℚ) : Except Err (List DF) :=
  let n : Int := ((memUsage df : ℚ) / size).ceil
  if n ≤ 0 then .error .arraySplitError
  else .ok ((takeChunks (splitSizes df.rows.length n.toNat) df.rows).map
    (fun rs => { df with rows := rs }))

/-- The document-building loop of `make_bson_docs`: build each sub-frame
in order, stopping at the first exception. -/
def processChunks (uid : String) (meta : Meta) : List DF → Except Err (List Doc)
  | [] => .ok []
  | c :: cs =>
    match makeBsonDoc uid c meta with
    | .ok d => (processChunks uid meta cs).map (fun ds => d :: ds)
    | .error e => .error e

/-- `make_bson_docs(uid, df, metadata, max_size)` from the source. The
`fuel` argument bounds the recursion depth, modelling Python's finite
recursion limit (`RecursionError` when exhausted); every claim about this
function holds for every fuel value that lets it return. On an
`InvalidBSON` escape the whole original frame is re-split with
`new_max_size = 0.95 * MAX_BSON_SIZE / ratio` after the
`assert new_max_size > MAX_BSON_SIZE * 0.8` guard. -/
def makeBsonDocs : Nat → String → DF → Meta → ℚ → Except Err (List Doc)
  | 0, _, _, _, _ => .error .recursionError
  | fuel + 1, uid, df, meta, size =>
    match splitDataframes df size with
    | .error e => .error e
    | .ok chunks =>
      match processChunks uid meta chunks with
      | .ok docs => .ok docs
      | .error (.invalidBSON _ r) =>
        let newMaxSize : ℚ := (95 / 100) * (MAX_BSON_SIZE : ℚ) / r
        if newMaxSize > (MAX_BSON_SIZE : ℚ) * (8 / 10) then
          makeBsonDocs fuel uid df meta newMaxSize
        else .error .assertionError
      | .error e => .error e

/-- Index value of a decoded index cell (`pd.Index` over the decoded
array; decoded time indexes are integral). -/
def valAsInt : Val → Int
  | .vInt z => z
  | .vNaN => 0

/-- Rebuild rows from a decoded index and decoded column value lists
(the `pd.DataFrame(index=..., data=OrderedDict(...))` constructor). -/
def mkRows : List Int → List (List Val) → List Row
  | [], _ => []
  | i :: is, cs => (i, cs.map (fun c => c.headD (.vInt 0))) :: mkRows is (cs.map List.tail)

/-- Deserialize every column blob, stopping at the first corrupt one. -/
def decodeColumns : List (List Nat) → Option (List (String × List Val))
  | [] => some []
  | d :: ds => do
    let v ← deserializeArr d
    let vs ← decodeColumns ds
    pure (v :: vs)

/-- `_build_dataframe(doc)` from the source: decode the index blob, decode
every column blob, and rebuild the frame with the document's column names
in order. No checksum is consulted. The `pd.DataFrame` constructor raises
when a column length does not match the index length
(`dataLengthMismatch`). -/
def readDoc (doc : Doc) : Except Err DF :=
  match deserializeArr doc.index.data with
  | none => .error .corruptEncoding
  | some (idt, ivals) =>
    match decodeColumns (doc.columns.map (fun p => p.2.data)) with
    | none => .error .corruptEncoding
    | some decoded =>
      let index : List Int := ivals.map valAsInt
      if decoded.all (fun p => p.2.length = index.length) then
        .ok { isDatetime := idt == "datetime64[ns]"
              cols := (doc.columns.map Prod.fst).zip (decoded.map Prod.fst)
              rows := mkRows index (decoded.map Prod.snd) }
      else .error .dataLengthMismatch

/-- Column-name union in first-appearance order (the outer join
`pd.concat` performs on the column axis, `sort=False`). -/
def unionNames (ls : List (List String)) : List String :=
  ls.foldl (fun acc ns => acc ++ ns.filter (fun n => !(acc.contains n))) []

/-- Dtype of a column of the concatenated frame: preserved when every
input frame carries the column with one common dtype, else promoted to
`float64` by the NaN fill. -/
def concatDtype (ts : List DF) (nm : String) : String :=
  if ts.all (fun t => t.names.contains nm) &&
      ts.all (fun t => dtypeOf t nm == ((ts.head?.map (fun t0 => dtypeOf t0 nm)).getD "")) then
    ((ts.head?.map (fun t0 => dtypeOf t0 nm)).getD "float64")
  else "float64"

/-- `pd.concat(frames)` on the row axis: stack the rows, outer-joining the
column sets, missing cells becoming NaN. -/
def concatTables (ts : List DF) : DF :=
  let nms := unionNames (ts.map DF.names)
  { isDatetime := ts.all DF.isDatetime
    cols := nms.map (fun nm => (nm, concatDtype ts nm))
    rows := (ts.map (fun t => t.rows.map (fun r =>
        (r.1, nms.map (fun nm =>
          if t.names.contains nm then
            r.2.getD (t.cols.findIdx (fun p => p.1 == nm)) (.vInt 0)
          else Val.vNaN))))).flatten }

/-- Decode every document, stopping at the first failing one. -/
def readAll : List Doc → Except Err (List DF)
  | [] => .ok []
  | d :: ds => do
    let t ← readDoc d
    let ts ← readAll ds
    pure (t :: ts)

/-- `build_dataframe(docs)` from the source: decode every document,
concatenate (`pd.concat` raises on an empty list: `concatError`), and
sort ascending by index. -/
def buildDataframe (docs : List Doc) : Except Err DF :=
  match readAll docs with
  | .error e => .error e
  | .ok [] => .error .concatError
  | .ok (t :: ts) => .ok (sortDF (concatTables (t :: ts)))

/-- Cell/dtype agreement required of a real numpy column: integer cells
are int64-representable, the NaN pattern occurs only as a float64 NaN,
and a float64 cell carrying the NaN bit pattern is NaN (not an int). -/
def cellOk (dt : String) : Val → Bool
  | .vInt z =>
    decide (-(2 ^ 63 : Int) ≤ z) && decide (z < 2 ^ 63) &&
      (!(dt == "float64") || !(z == (nanBits : Int)))
  | .vNaN => dt == "float64"

/-- Wellformedness of one row against the column list: full width, an
int64-representable timestamp, and dtype-consistent cells. -/
def rowOk (cols : List (String × String)) (r : Row) : Bool :=
  (r.2.length == cols.length) && decide (-(2 ^ 63 : Int) ≤ r.1) && decide (r.1 < 2 ^ 63) &&
    (cols.zip r.2).all (fun p => cellOk p.1.2 p.2)

/-- Wellformedness of a frame: the invariants every real `pd.DataFrame`
of the source's data model satisfies (unique column labels, NUL-free
dtype tags, machine-representable sizes and cells). -/
def DF.wf (df : DF) : Bool :=
  decide df.names.Nodup && decide (df.rows.length < 2 ^ 64) &&
    df.cols.all (fun p => p.2.data.all (fun c => c.toNat ≠ 0)) &&
    df.rows.all (rowOk df.cols)

/-- No column name contains a literal dot (so the rename inside
`_make_bson_doc` is the identity). -/
def dotFree (df : DF) : Bool := df.names.all (fun nm => removeDots nm == nm)

instance {ε α : Type} [DecidableEq ε] [DecidableEq α] : DecidableEq (Except ε α) := fun x y =>
  match x, y with
  | .ok a, .ok b =>
    if h : a = b then .isTrue (by rw [h]) else .isFalse (by intro hc; cases hc; exact h rfl)
  | .error a, .error b =>
    if h : a = b then .isTrue (by rw [h]) else .isFalse (by intro hc; cases hc; exact h rfl)
  | .ok _, .error _ => .isFalse (by intro hc; cases hc)
  | .error _, .ok _ => .isFalse (by intro hc; cases hc)

/-! ### Concrete frames used by witnesses and counterexamples -/

/-- A two-row, two-column wellformed frame with unsorted index. -/
def dfTwo : DF :=
  ⟨true, [("a", "int64"), ("b", "int64")], [(5, [.vInt 7, .vInt 1]), (3, [.vInt 9, .vInt 2])]⟩

/-- A frame with a dot in its single column name. -/
def dfDot : DF := ⟨true, [("a.b", "int64")], [(1, [.vInt 4]), (0, [.vInt 2])]⟩

/-- A zero-row frame with a valid time index. -/
def dfEmpty : DF := ⟨true, [("a", "int64")], []⟩

/-- The default `max_size` of `make_bson_docs`, `MAX_BSON_SIZE * 4`. -/
def defaultMaxSize : ℚ := (MAX_BSON_SIZE : ℚ) * 4

/-- A dummy record (absent-key default; never reached by the proofs). -/
def dummyDoc : Doc := ⟨"", 0, 0, [], ⟨[], "", 0, 0⟩, []⟩

/-- A dummy frame (fallback default; never reached by the proofs). -/
def dummyDF : DF := ⟨false, [], []⟩

/-- The record built from `dfTwo` under caller metadata that collides on
the reserved key `nrows`. -/
def docW : Doc := (makeBsonDoc "u" dfTwo [("nrows", .mStr "caller")]).toOption.getD dummyDoc

/-- The record built from `dfTwo` under empty caller metadata. -/
def docW2 : Doc := (makeBsonDoc "u" dfTwo []).toOption.getD dummyDoc

/-- A single-column frame named `a` (one row). -/
def dfColA : DF := ⟨true, [("a", "int64")], [(0, [.vInt 1])]⟩

/-- A single-column frame named `b` (one row). -/
def dfColB : DF := ⟨true, [("b", "int64")], [(1, [.vInt 2])]⟩

/-- The record built from `dfColA`. -/
def docA : Doc := (makeBsonDoc "u" dfColA []).toOption.getD dummyDoc

/-- The record built from `dfColB`. -/
def docB : Doc := (makeBsonDoc "u" dfColB []).toOption.getD dummyDoc

/-- Flip bit `k` of byte `i` of a blob. -/
def flipBitAt (l : List Nat) (i k : Nat) : List Nat :=
  l.mapIdx (fun j b => if j = i then Nat.xor b (2 ^ k) else b)

/-- `docA` with one bit of its only column's `data` blob flipped (byte 19
is the first payload byte of the cell values). -/
def docCorrupt : Doc :=
  { docA with columns :=
      docA.columns.map (fun p => (p.1, { p.2 with data := flipBitAt p.2.data 19 0 })) }

/-- Row count of the large uncompressible frame used to exercise the
oversized branch concretely. -/
def bigN : Nat := 1000000

/-- A million-row single-column frame: its binary size (about 16 MB at
the model's 1:1 compression rate) exceeds `0.95 * MAX_BSON_SIZE`, while
its memory usage (16 MB) stays below the default split target (64 MB),
so the first split produces one oversized chunk. -/
def bigDf : DF := ⟨true, [("a", "int64")], List.replicate bigN ((0 : Int), [Val.vInt 0])⟩

/-! ### Dict-union lemmas -/

theorem find?_congr {α : Type} (l : List α) (p q : α → Bool) (h : ∀ x ∈ l, p x = q x) :
    l.find? p = l.find? q := by
  induction l with
  | nil => rfl
  | cons x xs ih =>
    have hx := h x (List.mem_cons_self x xs)
    by_cases hp : p x = true
    · rw [List.find?_cons_of_pos _ hp, List.find?_cons_of_pos _ (hx ▸ hp)]
    · rw [List.find?_cons_of_neg _ hp, List.find?_cons_of_neg _ (hx ▸ hp)]
      exact ih (fun y hy => h y (List.mem_cons_of_mem x hy))

/-- A key present in the right dict of `{**a, **b}` gets the right dict's
value, whether or not the left dict also carries it. -/
theorem dictGet_pyDictUnion_right (a b : Meta) (k : String) (v : MVal)
    (h : dictGet b k = some v) : dictGet (pyDictUnion a b) k = some v := by
  induction a with
  | nil =>
    simpa [pyDictUnion, dictGet] using h
  | cons p a ih =>
    by_cases hk : (p.1 == k) = true
    · simp only [pyDictUnion, List.map_cons, List.cons_append, dictGet,
        List.find?_cons_of_pos _ hk, Option.map_some]
      obtain ⟨q, hq, hq2⟩ : ∃ q, b.find? (fun r => r.1 == k) = some q ∧ q.2 = v := by
        unfold dictGet at h
        cases hbf : b.find? (fun r => r.1 == k) with
        | none => rw [hbf] at h; simp at h
        | some q => rw [hbf] at h; simp at h; exact ⟨q, rfl, h⟩
      have hpk : p.1 = k := by simpa using hk
      rw [hpk, hq]
      simpa using hq2
    · have hstep : dictGet (pyDictUnion (p :: a) b) k = dictGet (pyDictUnion a b) k := by
        simp only [pyDictUnion, List.map_cons, List.cons_append, dictGet]
        rw [List.find?_cons_of_neg _ (by simpa using hk)]
        congr 1
        rw [List.find?_append, List.find?_append]
        congr 1
        rw [List.find?_filter, List.find?_filter]
        apply find?_congr
        intro q _
        by_cases hq : q.1 = k
        · have hpq : (p.1 == q.1) = false := by
            by_cases h2 : p.1 = q.1
            · exact absurd (by simp [h2, hq]) hk
            · simpa using h2
          simp [List.any_cons, hpq, hq]
          exact fun _ => by simpa using hk
        · have hqk : (q.1 == k) = false := by simpa using hq
          simp [hqk]
      rw [hstep]
      exact ih

/-- Lookup of the first key of a two-entry dict. -/
theorem dictGet_pair_fst (k1 k2 : String) (v1 v2 : MVal) :
    dictGet [(k1, v1), (k2, v2)] k1 = some v1 := by
  simp [dictGet]

/-- Lookup of the second key of a two-entry dict with distinct keys. -/
theorem dictGet_pair_snd (k1 k2 : String) (v1 v2 : MVal) (hne : (k1 == k2) = false) :
    dictGet [(k1, v1), (k2, v2)] k2 = some v2 := by
  simp [dictGet, List.find?, hne]

/-! ### Claim theorems: C9, C10, C8, C2 -/

/-- C9: column-name normalization in `_make_bson_doc` removes every
literal dot from a name, is idempotent, and a column named `a.b` appears
as `ab` in the built record. -/
theorem removeDots_idempotent_and_strips :
    (∀ s : String, removeDots (removeDots s) = removeDots s) ∧
    (∀ s : String, ∀ c ∈ (removeDots s).data, c ≠ '.') ∧
    (makeBsonDoc "u" dfDot []).map (fun d => d.columns.map Prod.fst) = .ok ["ab"] := by
  refine ⟨?_, ?_, by decide⟩
  · intro s
    show String.mk _ = String.mk _
    simp [removeDots, List.filter_filter]
  · intro s c hc
    simp only [removeDots, List.mem_filter] at hc
    exact of_decide_eq_true hc.2

/-- C10: `_make_bson_doc` never mutates the caller's frame: threading the
caller's object through every statement (each pandas call used with its
default `inplace=False`), the object at return time is the object passed
in, whether the call returns a record or raises; and the tracked run
returns exactly what the untracked embedding returns. -/
theorem makeBsonDoc_no_mutation (uid : String) (df : DF) (meta : Meta) :
    (makeBsonDocTracked uid df meta).2 = df ∧
    (makeBsonDocTracked uid df meta).1 = makeBsonDoc uid df meta := by
  unfold makeBsonDocTracked makeBsonDoc memUsageOp sortIndexOp renameColsOp
  constructor
  · split
    · rfl
    · dsimp only
      split
      · rfl
      · split <;> rfl
  · split
    · rfl
    · dsimp only
      split
      · rfl
      · split <;> rfl

/-- C8: the metadata of every record `_make_bson_doc` returns is the
caller metadata dict-union'd with the derived `nrows` (the spec's
`row_count`) and `binary_size` entries, and on a key collision the
derived value wins (the lookup of either derived key always yields the
derived value, whatever the caller supplied). -/
theorem metadata_extended_derived_wins (uid : String) (df : DF) (meta : Meta) (doc : Doc)
    (h : makeBsonDoc uid df meta = .ok doc) :
    doc.metadata =
      pyDictUnion meta
        [("nrows", .mInt (sortRows df.rows).length),
         ("binary_size", .mInt (binSizeOf (renameCols removeDots (sortDF df))))] ∧
    dictGet doc.metadata "nrows" = some (.mInt (sortRows df.rows).length) ∧
    dictGet doc.metadata "binary_size" =
      some (.mInt (binSizeOf (renameCols removeDots (sortDF df)))) := by
  have hmeta : doc.metadata =
      pyDictUnion meta
        [("nrows", .mInt (sortRows df.rows).length),
         ("binary_size", .mInt (binSizeOf (renameCols removeDots (sortDF df))))] := by
    unfold makeBsonDoc at h
    split at h
    · cases h
    · dsimp only at h
      split at h
      · cases h
      · split at h
        · cases h
        · cases h; rfl
  refine ⟨hmeta, ?_, ?_⟩
  · rw [hmeta]
    exact dictGet_pyDictUnion_right _ _ _ _ (dictGet_pair_fst _ _ _ _)
  · rw [hmeta]
    exact dictGet_pyDictUnion_right _ _ _ _ (dictGet_pair_snd _ _ _ _ (by decide))

/-- Witness for C8: a concrete build whose caller metadata collides on
the reserved key `nrows`; the derived values win in the result. -/
theorem metadata_extended_derived_wins_witness :
    dictGet docW.metadata "nrows" = some (.mInt (sortRows dfTwo.rows).length) ∧
    dictGet docW.metadata "binary_size" =
      some (.mInt (binSizeOf (renameCols removeDots (sortDF dfTwo)))) :=
  (metadata_extended_derived_wins "u" dfTwo [("nrows", .mStr "caller")] docW (by decide)).2

/-- C2: with a valid time index, `_make_bson_doc` fails with
`InvalidBSON` carrying the binary size and the compression ratio exactly
when `binary_size` (index size plus the summed column sizes) exceeds
`0.95 * MAX_BSON_SIZE`; any `InvalidBSON` failure carries those values
and implies the bound was exceeded; and every record returned has
`binary_size` at most `0.95 * MAX_BSON_SIZE`, recorded in its
metadata. -/
theorem binary_size_bound (uid : String) (df : DF) (meta : Meta)
    (hdt : df.isDatetime = true) :
    ((binSizeOf (renameCols removeDots (sortDF df)) : ℚ) > (95 / 100) * (MAX_BSON_SIZE : ℚ) →
      makeBsonDoc uid df meta =
        .error (.invalidBSON (binSizeOf (renameCols removeDots (sortDF df)))
          ((binSizeOf (renameCols removeDots (sortDF df)) : ℚ) / (memUsage df : ℚ)))) ∧
    (∀ bs r, makeBsonDoc uid df meta = .error (.invalidBSON bs r) →
      bs = binSizeOf (renameCols removeDots (sortDF df)) ∧
      r = (binSizeOf (renameCols removeDots (sortDF df)) : ℚ) / (memUsage df : ℚ) ∧
      (binSizeOf (renameCols removeDots (sortDF df)) : ℚ) > (95 / 100) * (MAX_BSON_SIZE : ℚ)) ∧
    (∀ doc, makeBsonDoc uid df meta = .ok doc →
      dictGet doc.metadata "binary_size" =
        some (.mInt (binSizeOf (renameCols removeDots (sortDF df)))) ∧
      (binSizeOf (renameCols removeDots (sortDF df)) : ℚ) ≤ (95 / 100) * (MAX_BSON_SIZE : ℚ)) := by
  have hne : df.isDatetime = false ↔ False := by simp [hdt]
  refine ⟨?_, ?_, ?_⟩
  · intro hgt
    unfold makeBsonDoc
    rw [if_neg (by simp [hdt]), if_pos hgt]
  · intro bs r h
    unfold makeBsonDoc at h
    split at h
    · cases h
    · dsimp only at h
      split at h
      · cases h
        exact ⟨rfl, rfl, by assumption⟩
      · split at h <;> cases h
  · intro doc h
    have h2 := (metadata_extended_derived_wins uid df meta doc h).2.2
    refine ⟨h2, ?_⟩
    unfold makeBsonDoc at h
    split at h
    · cases h
    · dsimp only at h
      split at h
      · cases h
      · rename_i hle
        exact le_of_not_lt hle

/-- Witness for C2: the theorem applied to a concrete small valid frame;
its record's binary size respects the bound. -/
theorem binary_size_bound_witness :
    dictGet docW2.metadata "binary_size" =
      some (.mInt (binSizeOf (renameCols removeDots (sortDF dfTwo)))) ∧
    (binSizeOf (renameCols removeDots (sortDF dfTwo)) : ℚ) ≤ (95 / 100) * (MAX_BSON_SIZE : ℚ) :=
  (binary_size_bound "u" dfTwo [] (by decide)).2.2 docW2 (by decide)

/-! ### Claim theorems: C6, C5, C3 -/

/-- Counterexample to C6 as stated: splitting a zero-row table does not
return a single degenerate record; its memory usage is 0, the estimated
section count is 0, and `np.array_split` raises (`ValueError`), so
`make_bson_docs` propagates an error and returns no record list. -/
theorem empty_table_split_counterexample :
    makeBsonDocs 1 "u" dfEmpty [] defaultMaxSize = .error .arraySplitError := by
  decide

/-- C6 amended: for every zero-row frame and every positive target size,
`make_bson_docs` fails with the `np.array_split` `ValueError` (the
section estimate `ceil(0 / size)` is 0) instead of producing a record. -/
theorem empty_table_split_raises (fuel : Nat) (uid : String) (df : DF) (meta : Meta)
    (size : ℚ) (hsize : 0 < size) (hrows : df.rows = []) :
    makeBsonDocs (fuel + 1) uid df meta size = .error .arraySplitError := by
  have hmem : memUsage df = 0 := by simp [memUsage, hrows]
  unfold makeBsonDocs splitDataframes
  rw [hmem]
  norm_num
  rw [if_pos (show Rat.ceil 0 ≤ 0 by decide)]

/-- Witness for C6 amended: a concrete zero-row frame, distinct target
size and metadata. -/
theorem empty_table_split_raises_witness :
    (0 : ℚ) < 1 ∧ dfEmpty.rows = [] ∧
      makeBsonDocs (0 + 1) "w" dfEmpty [("k", .mStr "v")] 1 = .error .arraySplitError :=
  ⟨by norm_num, rfl, empty_table_split_raises 0 "w" dfEmpty [("k", .mStr "v")] 1 (by norm_num) rfl⟩

/-- Counterexample to C5 as stated: two records with differing column
sets do not make `build_dataframe` fail; `pd.concat` outer-joins them and
a table is returned (missing cells NaN, dtypes promoted to float64). -/
theorem schema_mismatch_counterexample :
    docA.columns.map Prod.fst = ["a"] ∧ docB.columns.map Prod.fst = ["b"] ∧
    buildDataframe [docA, docB] =
      .ok ⟨true, [("a", "float64"), ("b", "float64")],
        [(0, [.vInt 1, .vNaN]), (1, [.vNaN, .vInt 2])]⟩ := by
  decide

/-- C5 amended: `build_dataframe` performs no schema validation: whenever
both records decode, it returns the sorted outer-join concatenation, even
when the column sets differ — it never fails with a schema error. -/
theorem buildDataframe_outer_joins (d1 d2 : Doc) (t1 t2 : DF)
    (h1 : readDoc d1 = .ok t1) (h2 : readDoc d2 = .ok t2) :
    buildDataframe [d1, d2] = .ok (sortDF (concatTables [t1, t2])) := by
  unfold buildDataframe readAll
  rw [h1]
  unfold readAll
  rw [h2]
  rfl

/-- Witness for C5 amended: applied to the two concrete records with
differing column sets. -/
theorem buildDataframe_outer_joins_witness :
    buildDataframe [docA, docB] =
      .ok (sortDF (concatTables [(readDoc docA).toOption.getD dummyDF,
        (readDoc docB).toOption.getD dummyDF])) :=
  buildDataframe_outer_joins docA docB _ _ (by decide) (by decide)

/-- Counterexample to C3 as stated: a single-bit corruption of a column's
`data` blob does not make `_build_dataframe` fail with a checksum error —
the stored `sha1` digest is never consulted; the read succeeds and
silently returns a different table. -/
theorem checksum_not_verified_counterexample :
    docCorrupt.columns.map (fun p => p.2.data) ≠ docA.columns.map (fun p => p.2.data) ∧
    (readDoc docCorrupt).isOk = true ∧
    readDoc docCorrupt ≠ readDoc docA ∧
    readDoc docCorrupt ≠ .error .checksumMismatch := by
  decide

/-! ### Claim C4: the oversized-document retry of `make_bson_docs` -/

/-- C4: once the frame is split, the loop either returns the documents of
all successfully built sub-frames (the recursion ends when every
sub-frame builds), or — on an `InvalidBSON` escape with ratio `r` —
discards every previously built record and recurses over the entire
original frame with the recomputed target
`0.95 * MAX_BSON_SIZE / r`, after asserting that the new target exceeds
`MAX_BSON_SIZE * 0.8` (aborting with `AssertionError` otherwise). -/
theorem oversized_retry (fuel : Nat) (uid : String) (df : DF) (meta : Meta) (size : ℚ)
    (chunks : List DF) (hsp : splitDataframes df size = .ok chunks) :
    (∀ docs, processChunks uid meta chunks = .ok docs →
      makeBsonDocs (fuel + 1) uid df meta size = .ok docs) ∧
    (∀ bs r, processChunks uid meta chunks = .error (.invalidBSON bs r) →
      ((95 / 100) * (MAX_BSON_SIZE : ℚ) / r > (MAX_BSON_SIZE : ℚ) * (8 / 10) →
        makeBsonDocs (fuel + 1) uid df meta size =
          makeBsonDocs fuel uid df meta ((95 / 100) * (MAX_BSON_SIZE : ℚ) / r)) ∧
      (¬ (95 / 100) * (MAX_BSON_SIZE : ℚ) / r > (MAX_BSON_SIZE : ℚ) * (8 / 10) →
        makeBsonDocs (fuel + 1) uid df meta size = .error .assertionError)) := by
  refine ⟨?_, ?_⟩
  · intro docs hpc
    conv_lhs => unfold makeBsonDocs
    rw [hsp]
    dsimp only
    rw [hpc]
  · intro bs r hpc
    constructor
    · intro hgt
      conv_lhs => unfold makeBsonDocs
      rw [hsp]
      dsimp only
      rw [hpc]
      dsimp only
      rw [if_pos hgt]
    · intro hle
      conv_lhs => unfold makeBsonDocs
      rw [hsp]
      dsimp only
      rw [hpc]
      dsimp only
      rw [if_neg hle]

theorem valBytes_length (v : Val) : (valBytes v).length = 8 := by
  cases v <;> rfl

theorem flatten_valBytes_length (vals : List Val) :
    ((vals.map valBytes).flatten).length = 8 * vals.length := by
  induction vals with
  | nil => rfl
  | cons v vs ih =>
    simp only [List.map_cons, List.flatten_cons, List.length_append, ih,
      valBytes_length, List.length_cons]
    omega

theorem serializeArr_length (dt : String) (vals : List Val) :
    (serializeArr dt vals).length = dt.data.length + 14 + 8 * vals.length := by
  simp only [serializeArr, lz4compress, npySave, le32, le64, strBytes,
    List.length_append, List.length_cons, List.length_nil, List.length_map,
    flatten_valBytes_length]
  omega

theorem sortRows_replicate (n : Nat) (r : Row) :
    sortRows (List.replicate n r) = List.replicate n r := by
  induction n with
  | zero => rfl
  | succ n ih =>
    rw [List.replicate_succ]
    unfold sortRows at ih ⊢
    rw [List.insertionSort, ih]
    cases n with
    | zero => rfl
    | succ m =>
      rw [List.replicate_succ, List.orderedInsert_of_le rowLe _ (le_refl r.1)]

/-! Unfolding equations, stated symbolically so that their one-time
kernel check never evaluates a concrete frame. -/

theorem memUsage_eq (df : DF) :
    memUsage df = 8 * df.rows.length * (1 + df.cols.length) := rfl

theorem colVals_eq (df : DF) (name : String) :
    colVals df name =
      df.rows.map (fun r => r.2.getD (df.cols.findIdx (fun p => p.1 == name)) (.vInt 0)) := rfl

theorem sonColumns_eq (df : DF) :
    sonColumns df =
      df.names.foldl
        (fun acc name => sonInsert acc name (makeBsonColumn (dtypeOf df name) (colVals df name)))
        [] := rfl

theorem binSizeOf_eq (df : DF) :
    binSizeOf df =
      df.names.foldl (fun s name => s + (sonGet (sonColumns df) name).size) 0 +
        (idxColumn df).size := rfl

theorem idxColumn_eq (df : DF) :
    idxColumn df = makeBsonColumn "datetime64[ns]" (df.rows.map (fun r => Val.vInt r.1)) := rfl

theorem makeBsonColumn_size (dt : String) (vals : List Val) :
    (makeBsonColumn dt vals).size = (serializeArr dt vals).length := rfl

theorem sonGet_head (k : String) (v : ColRec) (rest : List (String × ColRec)) :
    sonGet ((k, v) :: rest) k = v := by
  simp [sonGet]

/-! Facts about the big frame, derived purely by rewriting. -/

theorem bigDf_rows : bigDf.rows = List.replicate bigN ((0 : Int), [Val.vInt 0]) := rfl

theorem bigDf_cols : bigDf.cols = [("a", "int64")] := rfl

theorem bigDf_names : bigDf.names = ["a"] := rfl

theorem dtypeOf_bigDf : dtypeOf bigDf "a" = "int64" := rfl

/-- The big frame is already sorted and dot-free, so the builder's
sort/rename leave it unchanged. -/
theorem bigDf_sorted_renamed : renameCols removeDots (sortDF bigDf) = bigDf := by
  unfold renameCols sortDF bigDf
  rw [sortRows_replicate]
  rfl

theorem bigDf_rows_length : bigDf.rows.length = bigN := by
  rw [bigDf_rows, List.length_replicate]

theorem bigDf_cols_length : bigDf.cols.length = 1 := by
  rw [bigDf_cols]
  rfl

theorem memUsage_bigDf : memUsage bigDf = 16000000 := by
  rw [memUsage_eq, bigDf_rows_length, bigDf_cols_length]
  norm_num [bigN]

theorem colVals_bigDf : colVals bigDf "a" = List.replicate bigN (Val.vInt 0) := by
  rw [colVals_eq, bigDf_rows, List.map_replicate]
  exact congrArg (fun v => List.replicate bigN v) rfl

theorem sonColumns_bigDf :
    sonColumns bigDf =
      [("a", makeBsonColumn "int64" (List.replicate bigN (Val.vInt 0)))] := by
  rw [sonColumns_eq, bigDf_names, List.foldl_cons, List.foldl_nil, dtypeOf_bigDf, colVals_bigDf]
  rfl

theorem binSizeOf_bigDf : binSizeOf bigDf = 16000047 := by
  rw [binSizeOf_eq, bigDf_names, List.foldl_cons, List.foldl_nil, sonColumns_bigDf,
    sonGet_head, makeBsonColumn_size, idxColumn_eq, bigDf_rows, List.map_replicate,
    makeBsonColumn_size, serializeArr_length, serializeArr_length]
  rw [show Val.vInt ((0 : Int), [Val.vInt 0]).1 = Val.vInt 0 from rfl]
  rw [List.length_replicate]
  norm_num [bigN]

/-- Unfolding equation of `_make_bson_doc`, stated symbolically. -/
theorem makeBsonDoc_unfold (uid : String) (df : DF) (meta : Meta) :
    makeBsonDoc uid df meta =
      if df.isDatetime = false then .error .invalidIndex
      else
        let memU := memUsage df
        let dfr := renameCols removeDots (sortDF df)
        let index := idxColumn dfr
        let columns := sonColumns dfr
        let nrows := dfr.rows.length
        let binSize := binSizeOf dfr
        let ratio : ℚ := (binSize : ℚ) / (memU : ℚ)
        if (binSize : ℚ) > (95 / 100) * (MAX_BSON_SIZE : ℚ) then
          .error (.invalidBSON binSize ratio)
        else
          match dfr.rows with
          | [] => .error .indexError
          | r0 :: rest =>
            .ok { uid := uid
                  start := r0.1
                  endv := (rest.getLastD r0).1
                  metadata :=
                    pyDictUnion meta [("nrows", .mInt nrows), ("binary_size", .mInt binSize)]
                  index := index
                  columns := columns } := rfl

/-- Building the big frame fails with `InvalidBSON`, carrying its binary
size and its (near-1) compression ratio. -/
theorem makeBsonDoc_bigDf :
    makeBsonDoc "u" bigDf [] =
      .error (.invalidBSON 16000047 (((16000047 : Nat) : ℚ) / ((16000000 : Nat) : ℚ))) := by
  rw [makeBsonDoc_unfold]
  rw [if_neg (by decide)]
  dsimp only
  rw [bigDf_sorted_renamed, binSizeOf_bigDf, memUsage_bigDf]
  rw [if_pos (by norm_num [MAX_BSON_SIZE])]

theorem processChunks_cons (uid : String) (meta : Meta) (c : DF) (cs : List DF) :
    processChunks uid meta (c :: cs) =
      match makeBsonDoc uid c meta with
      | .ok d => (processChunks uid meta cs).map (fun ds => d :: ds)
      | .error e => .error e := rfl

theorem processChunks_bigDf :
    processChunks "u" [] [bigDf] =
      .error (.invalidBSON 16000047 (((16000047 : Nat) : ℚ) / ((16000000 : Nat) : ℚ))) := by
  rw [processChunks_cons, makeBsonDoc_bigDf]

/-- Unfolding equation of the inner `split_dataframes`, stated
symbolically. -/
theorem splitDataframes_eq (df : DF) (size : ℚ) :
    splitDataframes df size =
      if ((memUsage df : ℚ) / size).ceil ≤ 0 then .error .arraySplitError
      else
        .ok ((takeChunks (splitSizes df.rows.length ((memUsage df : ℚ) / size).ceil.toNat)
          df.rows).map (fun rs => { df with rows := rs })) := rfl

theorem takeChunks_single (s : Nat) (rs : List Row) : takeChunks [s] rs = [rs.take s] := rfl

theorem splitDataframes_bigDf : splitDataframes bigDf defaultMaxSize = .ok [bigDf] := by
  rw [splitDataframes_eq, memUsage_bigDf]
  rw [if_neg (by decide)]
  have hceil : ((((16000000 : Nat) : ℚ)) / defaultMaxSize).ceil.toNat = 1 := by decide
  rw [hceil, bigDf_rows_length]
  have hsz : splitSizes bigN 1 = [bigN] := by decide
  rw [hsz, bigDf_rows, takeChunks_single]
  simp only [List.take_replicate, min_self]
  rfl

/-- Witness for C4: the million-row frame makes its only chunk oversized
with ratio `16000047 / 16000000`; the new target passes the assertion and
the whole original frame is re-split with it. -/
theorem oversized_retry_witness :
    splitDataframes bigDf defaultMaxSize = .ok [bigDf] ∧
    processChunks "u" [] [bigDf] =
      .error (.invalidBSON 16000047 (((16000047 : Nat) : ℚ) / ((16000000 : Nat) : ℚ))) ∧
    makeBsonDocs 1 "u" bigDf [] defaultMaxSize =
      makeBsonDocs 0 "u" bigDf []
        ((95 / 100) * (MAX_BSON_SIZE : ℚ) / (((16000047 : Nat) : ℚ) / ((16000000 : Nat) : ℚ))) :=
  ⟨splitDataframes_bigDf, processChunks_bigDf,
    ((oversized_retry 0 "u" bigDf [] defaultMaxSize [bigDf] splitDataframes_bigDf).2
      16000047 _ processChunks_bigDf).1 (by norm_num [MAX_BSON_SIZE])⟩

/-- C3 amended: `_build_dataframe` decodes without verifying any
checksum: no input whatsoever is rejected with a checksum mismatch (its
only failures are decompression/layout errors and length mismatches);
corrupted data either fails decoding or is silently accepted. -/
theorem readDoc_never_checksum_mismatch (doc : Doc) :
    readDoc doc ≠ .error .checksumMismatch := by
  intro h
  unfold readDoc at h
  split at h
  · simp at h
  · split at h
    · simp at h
    · dsimp only at h
      split at h <;> simp at h

/-! ### Codec round-trip lemmas -/

theorem deLe64_le64 (n : Nat) (h : n < 2 ^ 64) : deLe64 (le64 n) = n := by
  simp only [le64, deLe64]
  omega

theorem deLe32_le32 (n : Nat) (h : n < 2 ^ 32) : deLe32 (le32 n) = n := by
  simp only [le32, deLe32]
  omega

theorem le64_length (n : Nat) : (le64 n).length = 8 := rfl

theorem le32_length (n : Nat) : (le32 n).length = 4 := rfl

theorem bytesToVal_valBytes (dt : String) (v : Val) (h : cellOk dt v = true) :
    bytesToVal dt (valBytes v) = v := by
  cases v with
  | vNaN =>
    simp only [cellOk] at h
    simp only [valBytes, bytesToVal, nanBits]
    rw [deLe64_le64 _ (by norm_num)]
    simp [h]
  | vInt z =>
    simp only [cellOk, Bool.and_eq_true, decide_eq_true_eq, Bool.or_eq_true,
      Bool.not_eq_true'] at h
    obtain ⟨⟨h1, h2⟩, h3⟩ := h
    have hmod : (z % (2 ^ 64 : Int)).toNat = if 0 ≤ z then z.toNat else (z + 2 ^ 64).toNat := by
      split
      · rw [Int.emod_eq_of_lt (by assumption) (by omega)]
      · rw [show z % (2 ^ 64 : Int) = z + 2 ^ 64 by omega]
    simp only [valBytes]
    rw [show ((z % (2 ^ 64 : Int)).toNat) = (z % (2 ^ 64 : Int)).toNat from rfl]
    have hlt : (z % (2 ^ 64 : Int)).toNat < 2 ^ 64 := by
      have := Int.emod_lt_of_pos z (show (0 : Int) < 2 ^ 64 by norm_num)
      have := Int.emod_nonneg z (show (2 ^ 64 : Int) ≠ 0 by norm_num)
      omega
    simp only [bytesToVal]
    rw [deLe64_le64 _ hlt]
    by_cases hz : 0 ≤ z
    · have hn : (z % (2 ^ 64 : Int)).toNat = z.toNat := by
        rw [Int.emod_eq_of_lt hz (by omega)]
      rw [hn]
      have hsmall : z.toNat < 2 ^ 63 := by omega
      have hnan : ¬((dt == "float64") && (z.toNat == nanBits)) = true := by
        intro hc
        simp only [Bool.and_eq_true, beq_iff_eq] at hc
        rcases h3 with h3 | h3
        · rw [hc.1] at h3
          simp at h3
        · have hzn : (z == (nanBits : Int)) = true := by
            have : z = (nanBits : Int) := by
              have := hc.2
              simp only [nanBits] at this ⊢
              omega
            simp [this]
          rw [h3] at hzn
          cases hzn
      rw [if_neg hnan]
      simp only [hsmall, if_pos]
      congr 1
      omega
    · have hn : (z % (2 ^ 64 : Int)).toNat = (z + 2 ^ 64).toNat := by
        rw [show z % (2 ^ 64 : Int) = z + 2 ^ 64 by omega]
      rw [hn]
      have hbig : ¬((z + 2 ^ 64).toNat < 2 ^ 63) := by omega
      have hnan : ¬((dt == "float64") && ((z + 2 ^ 64).toNat == nanBits)) = true := by
        intro hc
        simp only [Bool.and_eq_true, beq_iff_eq] at hc
        have h4 := hc.2
        simp only [nanBits] at h4
        omega
      rw [if_neg hnan]
      simp only [hbig, if_neg, if_false]
      congr 1
      omega

theorem chunk8_cons8 (l rest : List Nat) (h : l.length = 8) :
    chunk8 (l ++ rest) = l :: chunk8 rest := by
  match l, h with
  | [b0, b1, b2, b3, b4, b5, b6, b7], _ => rfl

theorem decodeVals_roundtrip (dt : String) (vals : List Val)
    (h : ∀ v ∈ vals, cellOk dt v = true) :
    decodeVals dt ((vals.map valBytes).flatten) = vals := by
  induction vals with
  | nil => rfl
  | cons v vs ih =>
    simp only [List.map_cons, List.flatten_cons]
    unfold decodeVals
    rw [chunk8_cons8 _ _ (valBytes_length v), List.map_cons]
    have hv := bytesToVal_valBytes dt v (h v (List.mem_cons_self v vs))
    rw [hv]
    have := ih (fun w hw => h w (List.mem_cons_of_mem v hw))
    unfold decodeVals at this
    rw [this]

theorem takeWhile_marker (bs rest : List Nat) (h : ∀ b ∈ bs, b ≠ 0) :
    (bs ++ 0 :: rest).takeWhile (fun x => x ≠ 0) = bs ∧
    (bs ++ 0 :: rest).dropWhile (fun x => x ≠ 0) = 0 :: rest := by
  induction bs with
  | nil => constructor <;> simp [List.takeWhile, List.dropWhile]
  | cons b bs ih =>
    have hb : b ≠ 0 := h b (List.mem_cons_self b bs)
    have ih2 := ih (fun x hx => h x (List.mem_cons_of_mem b hx))
    constructor
    · simp only [List.cons_append, List.takeWhile_cons]
      rw [if_pos (by simpa using hb), ih2.1]
    · simp only [List.cons_append, List.dropWhile_cons]
      rw [if_pos (by simpa using hb), ih2.2]

theorem strOf_strBytes (s : String) : strOf (strBytes s) = s := by
  unfold strOf strBytes
  rw [List.map_map]
  have : (Char.ofNat ∘ Char.toNat) = id := by
    funext c
    exact Char.ofNat_toNat c
  rw [this, List.map_id]

theorem npyLoad_npySave (dt : String) (vals : List Val)
    (hlen : vals.length < 2 ^ 64)
    (hdt : ∀ b ∈ strBytes dt, b ≠ 0)
    (hcells : ∀ v ∈ vals, cellOk dt v = true) :
    npyLoad (npySave dt vals) = some (dt, vals) := by
  unfold npySave
  simp only [npyLoad]
  rw [(takeWhile_marker (strBytes dt) _ hdt).1, (takeWhile_marker (strBytes dt) _ hdt).2]
  have hl8 : (le64 vals.length ++ (vals.map valBytes).flatten).length = 8 + 8 * vals.length := by
    rw [List.length_append, le64_length, flatten_valBytes_length]
  dsimp only
  rw [if_neg (by omega)]
  rw [List.take_left' (le64_length vals.length), List.drop_left' (le64_length vals.length)]
  rw [deLe64_le64 _ hlen, flatten_valBytes_length]
  rw [if_pos rfl]
  rw [strOf_strBytes, decodeVals_roundtrip dt vals hcells]

theorem lz4_roundtrip (b : List Nat) (h : b.length < 2 ^ 32) :
    lz4decompress (lz4compress b) = some b := by
  unfold lz4compress lz4decompress
  rw [if_neg (by rw [List.length_append, le32_length]; omega)]
  rw [List.take_left' (le32_length b.length), List.drop_left' (le32_length b.length)]
  rw [deLe32_le32 _ h, if_pos rfl]

theorem deserializeArr_serializeArr (dt : String) (vals : List Val)
    (hsize : (npySave dt vals).length < 2 ^ 32)
    (hlen : vals.length < 2 ^ 64)
    (hdt : ∀ b ∈ strBytes dt, b ≠ 0)
    (hcells : ∀ v ∈ vals, cellOk dt v = true) :
    deserializeArr (serializeArr dt vals) = some (dt, vals) := by
  unfold deserializeArr serializeArr
  rw [lz4_roundtrip _ hsize]
  exact npyLoad_npySave dt vals hlen hdt hcells

/-! ### Stable-sort algebra -/

theorem sortRows_sorted (l : List Row) : (sortRows l).Sorted rowLe :=
  List.sorted_insertionSort rowLe l

theorem sortRows_perm (l : List Row) : List.Perm (sortRows l) l :=
  List.perm_insertionSort rowLe l

theorem filter_orderedInsert (k : Int) (a : Row) (l : List Row) :
    (l.orderedInsert rowLe a).filter (fun r => r.1 == k) =
      if a.1 = k then a :: l.filter (fun r => r.1 == k)
      else l.filter (fun r => r.1 == k) := by
  induction l with
  | nil =>
    by_cases hak : a.1 = k <;> simp [List.orderedInsert, List.filter_cons, hak]
  | cons b l ih =>
    show (if rowLe a b then a :: b :: l else b :: l.orderedInsert rowLe a).filter _ = _
    by_cases hab : rowLe a b
    · rw [if_pos hab]
      by_cases hak : a.1 = k <;> simp [List.filter_cons, hak]
    · rw [if_neg hab]
      have hba : b.1 < a.1 := by
        simp only [rowLe, not_le] at hab
        exact hab
      by_cases hak : a.1 = k
      · have hbk : ¬ b.1 = k := by omega
        simp [List.filter_cons, hak, hbk, ih]
      · by_cases hbk : b.1 = k <;> simp [List.filter_cons, hak, hbk, ih]

theorem filter_sortRows (k : Int) (l : List Row) :
    (sortRows l).filter (fun r => r.1 == k) = l.filter (fun r => r.1 == k) := by
  induction l with
  | nil => rfl
  | cons b l ih =>
    show ((List.insertionSort rowLe l).orderedInsert rowLe b).filter _ = _
    rw [filter_orderedInsert]
    by_cases hbk : b.1 = k
    · rw [if_pos hbk, List.filter_cons_of_pos (by simpa using hbk)]
      exact congrArg _ ih
    · rw [if_neg hbk, List.filter_cons_of_neg (by simpa using hbk)]
      exact ih

theorem sorted_eq_of_filter_eq : ∀ {l₁ l₂ : List Row}, l₁.Sorted rowLe → l₂.Sorted rowLe →
    (∀ k, l₁.filter (fun r => r.1 == k) = l₂.filter (fun r => r.1 == k)) → l₁ = l₂ := by
  intro l₁
  induction l₁ with
  | nil =>
    intro l₂ _ _ hf
    cases l₂ with
    | nil => rfl
    | cons r₂ t₂ =>
      have := hf r₂.1
      rw [List.filter_nil, List.filter_cons_of_pos (by simp)] at this
      cases this
  | cons r₁ t₁ ih =>
    intro l₂ h₁ h₂ hf
    cases l₂ with
    | nil =>
      have := hf r₁.1
      rw [List.filter_nil, List.filter_cons_of_pos (by simp)] at this
      cases this
    | cons r₂ t₂ =>
      have hmem₂ : r₂ ∈ r₁ :: t₁ := by
        have h5 := hf r₂.1
        have h6 : r₂ ∈ (r₂ :: t₂).filter (fun r => r.1 == r₂.1) := by
          rw [List.filter_cons_of_pos (by simp)]
          exact List.mem_cons_self _ _
        rw [← h5] at h6
        exact List.mem_of_mem_filter h6
      have hmem₁ : r₁ ∈ r₂ :: t₂ := by
        have h5 := hf r₁.1
        have h6 : r₁ ∈ (r₁ :: t₁).filter (fun r => r.1 == r₁.1) := by
          rw [List.filter_cons_of_pos (by simp)]
          exact List.mem_cons_self _ _
        rw [h5] at h6
        exact List.mem_of_mem_filter h6
      have hk12 : r₁.1 ≤ r₂.1 := by
        rcases List.mem_cons.1 hmem₂ with h | h
        · rw [h]
        · exact List.rel_of_sorted_cons h₁ r₂ h
      have hk21 : r₂.1 ≤ r₁.1 := by
        rcases List.mem_cons.1 hmem₁ with h | h
        · rw [h]
        · exact List.rel_of_sorted_cons h₂ r₁ h
      have hkeq : r₂.1 = r₁.1 := le_antisymm hk21 hk12
      have hhead := hf r₁.1
      rw [List.filter_cons_of_pos (by simp), List.filter_cons_of_pos (by simp [hkeq])]
        at hhead
      have hr : r₁ = r₂ := (List.cons.injEq _ _ _ _ ▸ hhead).1
      have htail : ∀ k, t₁.filter (fun r => r.1 == k) = t₂.filter (fun r => r.1 == k) := by
        intro k
        by_cases hkk : r₁.1 = k
        · have := hf k
          rw [List.filter_cons_of_pos (by simp [hkk]),
            List.filter_cons_of_pos (by simp [hkeq, hkk])] at this
          exact (List.cons.injEq _ _ _ _ ▸ this).2
        · have := hf k
          rw [List.filter_cons_of_neg (by simpa using hkk),
            List.filter_cons_of_neg (by simpa [hkeq] using hkk)] at this
          exact this
      rw [hr, ih h₁.of_cons h₂.of_cons htail]

theorem sortRows_flatten_sortRows (parts : List (List Row)) :
    sortRows ((parts.map sortRows).flatten) = sortRows parts.flatten := by
  apply sorted_eq_of_filter_eq (sortRows_sorted _) (sortRows_sorted _)
  intro k
  rw [filter_sortRows, filter_sortRows]
  induction parts with
  | nil => rfl
  | cons p ps ih =>
    rw [List.map_cons, List.flatten_cons, List.flatten_cons, List.filter_append,
      List.filter_append, filter_sortRows, ih]

/-! ### Columnar transpose and label lookup -/

theorem getD_range (cs : List Val) (d : Val) :
    (List.range cs.length).map (fun j => cs.getD j d) = cs := by
  induction cs with
  | nil => rfl
  | cons c cs ih =>
    rw [List.length_cons, List.range_succ_eq_map, List.map_cons, List.map_map]
    have e : ((fun j => (c :: cs).getD j d) ∘ (fun i => i + 1)) = fun j => cs.getD j d := by
      funext j
      simp [List.getD]
    rw [e, ih]
    rfl

theorem mkRows_transpose (k : Nat) : ∀ (rows : List Row),
    (∀ r ∈ rows, r.2.length = k) →
    mkRows (rows.map Prod.fst)
      ((List.range k).map (fun j => rows.map (fun r => r.2.getD j (.vInt 0)))) = rows := by
  intro rows
  induction rows with
  | nil => intro _; rfl
  | cons r rs ih =>
    intro h
    rw [List.map_cons]
    show mkRows (r.1 :: rs.map Prod.fst) _ = r :: rs
    unfold mkRows
    congr 1
    · congr 1
      rw [List.map_map]
      have e1 : ((fun c => c.headD (Val.vInt 0)) ∘
          (fun j => (r :: rs).map (fun q => q.2.getD j (.vInt 0)))) =
          fun j => r.2.getD j (.vInt 0) := by
        funext j
        simp
      rw [e1]
      have hk : k = r.2.length := (h r (List.mem_cons_self r rs)).symm
      subst hk
      exact getD_range r.2 (.vInt 0)
    · rw [List.map_map]
      have e2 : (List.tail ∘ (fun j => (r :: rs).map (fun q => q.2.getD j (.vInt 0)))) =
          fun j => rs.map (fun q => q.2.getD j (.vInt 0)) := by
        funext j
        simp
      rw [e2]
      exact ih (fun q hq => h q (List.mem_cons_of_mem r hq))

theorem findIdx_nodup (cols : List (String × String)) (h : (cols.map Prod.fst).Nodup) :
    ∀ (j : Nat) (hj : j < cols.length),
      cols.findIdx (fun p => p.1 == cols[j].1) = j := by
  induction cols with
  | nil => intro j hj; exact absurd hj (by simp)
  | cons c rest ih =>
    intro j hj
    cases j with
    | zero => simp [List.findIdx_cons]
    | succ j =>
      have hj2 : j < rest.length := by simpa using hj
      have hget : (c :: rest)[j + 1] = rest[j] := List.getElem_cons_succ ..
      rw [hget, List.findIdx_cons]
      have hmem : rest[j].1 ∈ rest.map Prod.fst :=
        List.mem_map_of_mem Prod.fst (rest.getElem_mem hj2)
      have hcr : (c.1 :: rest.map Prod.fst).Nodup := by
        rw [← List.map_cons]
        exact h
      have hne : (c.1 == rest[j].1) = false := by
        have hnotin := (List.nodup_cons.1 hcr).1
        simp only [beq_eq_false_iff_ne, ne_eq]
        intro hc
        exact hnotin (hc ▸ hmem)
      rw [hne]
      simp only [cond_false]
      rw [ih (List.nodup_cons.1 hcr).2 j hj2]

theorem find?_pair_nodup {β : Type} (cols : List (String × β)) (hnd : (cols.map Prod.fst).Nodup)
    (c0 : String × β) (hc : c0 ∈ cols) :
    cols.find? (fun p => p.1 == c0.1) = some c0 := by
  induction cols with
  | nil => cases hc
  | cons c rest ih =>
    rcases List.mem_cons.1 hc with h | h
    · rw [h]
      exact List.find?_cons_of_pos _ (by simp)
    · have hcr : (c.1 :: rest.map Prod.fst).Nodup := by
        rw [← List.map_cons]
        exact hnd
      have hne : (c.1 == c0.1) = false := by
        have hnotin := (List.nodup_cons.1 hcr).1
        simp only [beq_eq_false_iff_ne, ne_eq]
        intro hcc
        exact hnotin (hcc ▸ List.mem_map_of_mem Prod.fst h)
      rw [List.find?_cons_of_neg _ (by simp [hne])]
      exact ih (List.nodup_cons.1 hcr).2 h

theorem dtypeOf_mem_nodup (df : DF) (hnd : df.names.Nodup) (c0 : String × String)
    (hc : c0 ∈ df.cols) : dtypeOf df c0.1 = c0.2 := by
  unfold dtypeOf
  rw [find?_pair_nodup df.cols hnd c0 hc]
  rfl

/-! ### SON construction under unique labels -/

theorem foldl_sonInsert (g : String → ColRec) :
    ∀ (names : List String) (acc : List (String × ColRec)),
      (∀ nm ∈ names, acc.any (fun p => p.1 == nm) = false) → names.Nodup →
      names.foldl (fun acc nm => sonInsert acc nm (g nm)) acc =
        acc ++ names.map (fun nm => (nm, g nm)) := by
  intro names
  induction names with
  | nil => intro acc _ _; simp
  | cons nm rest ih =>
    intro acc hfresh hnd
    rw [List.foldl_cons]
    have h1 : sonInsert acc nm (g nm) = acc ++ [(nm, g nm)] := by
      unfold sonInsert
      rw [if_neg (by rw [hfresh nm (List.mem_cons_self nm rest)]; simp)]
    rw [h1, ih (acc ++ [(nm, g nm)]) ?_ (List.nodup_cons.1 hnd).2]
    · simp
    · intro nm2 hnm2
      rw [List.any_append]
      have h2 : acc.any (fun p => p.1 == nm2) = false :=
        hfresh nm2 (List.mem_cons_of_mem nm hnm2)
      have h3 : (nm == nm2) = false := by
        simp only [beq_eq_false_iff_ne, ne_eq]
        intro hc
        exact (List.nodup_cons.1 hnd).1 (hc ▸ hnm2)
      simp [h2, h3]

theorem sonColumns_nodup (df : DF) (h : df.names.Nodup) :
    sonColumns df =
      df.cols.map (fun c => (c.1, makeBsonColumn (dtypeOf df c.1) (colVals df c.1))) := by
  rw [sonColumns_eq, foldl_sonInsert _ df.names [] (by simp) h, List.nil_append]
  rw [show df.names = df.cols.map Prod.fst from rfl, List.map_map]
  rfl

theorem sonGet_nodup (df : DF) (hnd : df.names.Nodup) (c0 : String × String)
    (hc : c0 ∈ df.cols) :
    sonGet (sonColumns df) c0.1 = makeBsonColumn (dtypeOf df c0.1) (colVals df c0.1) := by
  rw [sonColumns_nodup df hnd]
  unfold sonGet
  have hmap : ((df.cols.map (fun c => (c.1, makeBsonColumn (dtypeOf df c.1) (colVals df c.1)))).map
      Prod.fst).Nodup := by
    rw [List.map_map]
    exact hnd
  have := find?_pair_nodup _ hmap (c0.1, makeBsonColumn (dtypeOf df c0.1) (colVals df c0.1))
    (List.mem_map_of_mem _ hc)
  rw [this]
  rfl

theorem foldl_add_size (g : String → Nat) (names : List String) :
    ∀ (a : Nat), names.foldl (fun s nm => s + g nm) a = a + (names.map g).sum := by
  induction names with
  | nil => intro a; simp
  | cons nm rest ih =>
    intro a
    rw [List.foldl_cons, ih, List.map_cons, List.sum_cons]
    omega

/-! ### Wellformedness transport -/

theorem wf_iff (df : DF) : df.wf = true ↔
    df.names.Nodup ∧ df.rows.length < 2 ^ 64 ∧
    (∀ c ∈ df.cols, (c.2.data.all (fun ch => ch.toNat ≠ 0)) = true) ∧
    (∀ r ∈ df.rows, rowOk df.cols r = true) := by
  unfold DF.wf
  simp only [Bool.and_eq_true, decide_eq_true_eq, List.all_eq_true]
  tauto

theorem wf_rows_congr (df : DF) (rs : List Row) (hwf : df.wf = true)
    (hlen : rs.length ≤ df.rows.length) (hmem : ∀ r ∈ rs, r ∈ df.rows) :
    (DF.mk df.isDatetime df.cols rs).wf = true := by
  rw [wf_iff] at hwf ⊢
  obtain ⟨h1, h2, h3, h4⟩ := hwf
  refine ⟨h1, ?_, h3, fun r hr => h4 r (hmem r hr)⟩
  show rs.length < 2 ^ 64
  omega

theorem sortDF_cols (df : DF) : (sortDF df).cols = df.cols := rfl

theorem sortDF_rows (df : DF) : (sortDF df).rows = sortRows df.rows := rfl

theorem wf_sortDF (df : DF) (hwf : df.wf = true) : (sortDF df).wf = true := by
  have := wf_rows_congr df (sortRows df.rows) hwf
    (by rw [(sortRows_perm df.rows).length_eq])
    (fun r hr => (sortRows_perm df.rows).mem_iff.1 hr)
  exact this

theorem renameCols_dotFree (df : DF) (h : dotFree df = true) :
    renameCols removeDots df = df := by
  unfold renameCols
  have e : df.cols.map (fun p => (removeDots p.1, p.2)) = df.cols.map id := by
    apply List.map_congr_left
    intro c hc
    have hcname : removeDots c.1 == c.1 := by
      unfold dotFree at h
      rw [List.all_eq_true] at h
      exact h c.1 (List.mem_map_of_mem Prod.fst hc)
    have h2 : removeDots c.1 = c.1 := by simpa using hcname
    rw [h2]
    rfl
  rw [e, List.map_id]

theorem zip_all_getD (cols : List (String × String)) :
    ∀ (cells : List Val) (j : Nat) (hj : j < cols.length),
    ((cols.zip cells).all fun p => cellOk p.1.2 p.2) = true →
    cells.length = cols.length →
    cellOk cols[j].2 (cells.getD j (.vInt 0)) = true := by
  induction cols with
  | nil => intro _ j hj; exact absurd hj (by simp)
  | cons c cs ih =>
    intro cells j hj hall hlen
    cases cells with
    | nil => simp at hlen
    | cons v vs =>
      rw [List.zip_cons_cons, List.all_cons, Bool.and_eq_true] at hall
      cases j with
      | zero => exact hall.1
      | succ j =>
        have hj2 : j < cs.length := by simpa using hj
        exact ih vs j hj2 hall.2 (by simpa using hlen)

theorem decodeColumns_sound : ∀ (ps : List (String × List Val)),
    (∀ p ∈ ps, deserializeArr (serializeArr p.1 p.2) = some p) →
    decodeColumns (ps.map (fun p => serializeArr p.1 p.2)) = some ps := by
  intro ps
  induction ps with
  | nil => intro _; rfl
  | cons p ps ih =>
    intro h
    rw [List.map_cons]
    unfold decodeColumns
    rw [h p (List.mem_cons_self p ps), ih (fun q hq => h q (List.mem_cons_of_mem p hq))]
    rfl

theorem colVals_transpose (df : DF) (hnd : df.names.Nodup) :
    df.cols.map (fun c => colVals df c.1) =
      (List.range df.cols.length).map
        (fun j => df.rows.map (fun r => r.2.getD j (.vInt 0))) := by
  apply List.ext_getElem
  · simp
  · intro j h1 h2
    rw [List.getElem_map, List.getElem_map, List.getElem_range]
    rw [colVals_eq]
    have hj : j < df.cols.length := by simpa using h1
    rw [findIdx_nodup df.cols hnd j hj]

/-! ### Blob-size bounds and the shape of a successful build -/

theorem makeBsonColumn_data (dt : String) (vals : List Val) :
    (makeBsonColumn dt vals).data = serializeArr dt vals := rfl

theorem serializeArr_len_npySave (dt : String) (vals : List Val) :
    (serializeArr dt vals).length = 4 + (npySave dt vals).length := by
  simp only [serializeArr, lz4compress, le32, List.length_append, List.length_cons,
    List.length_nil]

theorem idxSize_le_binSize (df : DF) : (idxColumn df).size ≤ binSizeOf df := by
  rw [binSizeOf_eq]
  exact Nat.le_add_left _ _

theorem colSize_le_binSize (df : DF) (nm : String) (h : nm ∈ df.names) :
    (sonGet (sonColumns df) nm).size ≤ binSizeOf df := by
  rw [binSizeOf_eq, foldl_add_size]
  have hmem : (sonGet (sonColumns df) nm).size ∈
      df.names.map (fun n => (sonGet (sonColumns df) n).size) :=
    List.mem_map_of_mem _ h
  have hle := List.single_le_sum (fun x _ => Nat.zero_le x) _ hmem
  omega

theorem rowOk_parts (cols : List (String × String)) (r : Row) (h : rowOk cols r = true) :
    r.2.length = cols.length ∧ -(2 ^ 63 : Int) ≤ r.1 ∧ r.1 < 2 ^ 63 ∧
    ((cols.zip r.2).all fun p => cellOk p.1.2 p.2) = true := by
  unfold rowOk at h
  simp only [Bool.and_eq_true, decide_eq_true_eq, beq_iff_eq] at h
  tauto

theorem makeBsonDoc_ok (uid : String) (df : DF) (meta : Meta) (doc : Doc)
    (hok : makeBsonDoc uid df meta = .ok doc) :
    df.isDatetime = true ∧
    doc.index = idxColumn (renameCols removeDots (sortDF df)) ∧
    doc.columns = sonColumns (renameCols removeDots (sortDF df)) ∧
    binSizeOf (renameCols removeDots (sortDF df)) < 2 ^ 24 := by
  unfold makeBsonDoc at hok
  split at hok
  · simp at hok
  · rename_i hdt
    dsimp only at hok
    split at hok
    · simp at hok
    · rename_i hsz
      refine ⟨by simpa using hdt, ?_⟩
      have hbin : binSizeOf (renameCols removeDots (sortDF df)) < 2 ^ 24 := by
        rw [not_lt] at hsz
        have h2 : ((binSizeOf (renameCols removeDots (sortDF df)) : ℚ)) <
            ((2 ^ 24 : Nat) : ℚ) := by
          refine lt_of_le_of_lt hsz ?_
          norm_num [MAX_BSON_SIZE]
        exact_mod_cast h2
      split at hok
      · simp at hok
      · simp only [Except.ok.injEq] at hok
        subst hok
        exact ⟨rfl, rfl, hbin⟩

/-! ### Per-chunk round-trip: reading back a successfully built document -/

theorem cellOk_datetime (z : Int) (h1 : -(2 ^ 63 : Int) ≤ z) (h2 : z < 2 ^ 63) :
    cellOk "datetime64[ns]" (.vInt z) = true := by
  unfold cellOk
  rw [show (("datetime64[ns]" == "float64") = false) from by decide]
  simp only [Bool.not_false, Bool.true_or, Bool.and_true, Bool.and_eq_true, decide_eq_true_eq]
  omega

theorem valAsInt_map_vInt (rows : List Row) :
    (rows.map (fun r => Val.vInt r.1)).map valAsInt = rows.map Prod.fst := by
  rw [List.map_map]
  rfl

theorem colVals_length (df : DF) (nm : String) : (colVals df nm).length = df.rows.length := by
  rw [colVals_eq, List.length_map]

theorem readDoc_makeBsonDoc (uid : String) (meta : Meta) (df : DF) (doc : Doc)
    (hwf : df.wf = true) (hdot : dotFree df = true)
    (hok : makeBsonDoc uid df meta = .ok doc) :
    readDoc doc = .ok (sortDF df) := by
  obtain ⟨hdt, hidx, hcols, hbin⟩ := makeBsonDoc_ok uid df meta doc hok
  have hren : renameCols removeDots (sortDF df) = sortDF df := renameCols_dotFree _ hdot
  rw [hren] at hidx hcols hbin
  have hswf : (sortDF df).wf = true := wf_sortDF df hwf
  obtain ⟨hnd, hlen, hnul, hrows⟩ := (wf_iff (sortDF df)).1 hswf
  have hidxdec : deserializeArr doc.index.data =
      some ("datetime64[ns]", (sortDF df).rows.map (fun r => Val.vInt r.1)) := by
    rw [hidx, idxColumn_eq, makeBsonColumn_data]
    apply deserializeArr_serializeArr
    · have h1 : (serializeArr "datetime64[ns]"
          ((sortDF df).rows.map (fun r => Val.vInt r.1))).length ≤ binSizeOf (sortDF df) := by
        have h2 := idxSize_le_binSize (sortDF df)
        rwa [idxColumn_eq, makeBsonColumn_size] at h2
      have h3 := serializeArr_len_npySave "datetime64[ns]"
        ((sortDF df).rows.map (fun r => Val.vInt r.1))
      omega
    · simpa using hlen
    · decide
    · intro v hv
      obtain ⟨r, hr, rfl⟩ := List.mem_map.1 hv
      obtain ⟨_, hb1, hb2, _⟩ := rowOk_parts _ _ (hrows r hr)
      exact cellOk_datetime r.1 hb1 hb2
  have hcoldec : decodeColumns (doc.columns.map (fun p => p.2.data)) =
      some ((sortDF df).cols.map (fun c => (c.2, colVals (sortDF df) c.1))) := by
    rw [hcols, sonColumns_nodup _ hnd, List.map_map]
    have e2 : ((sortDF df).cols.map ((fun p => p.2.data) ∘
        (fun c => (c.1, makeBsonColumn (dtypeOf (sortDF df) c.1) (colVals (sortDF df) c.1))))) =
        ((sortDF df).cols.map (fun c => (c.2, colVals (sortDF df) c.1))).map
          (fun p => serializeArr p.1 p.2) := by
      rw [List.map_map]
      apply List.map_congr_left
      intro c hc
      show serializeArr (dtypeOf (sortDF df) c.1) (colVals (sortDF df) c.1) =
        serializeArr c.2 (colVals (sortDF df) c.1)
      rw [dtypeOf_mem_nodup _ hnd c hc]
    rw [e2]
    apply decodeColumns_sound
    intro p hp
    obtain ⟨c, hc, rfl⟩ := List.mem_map.1 hp
    dsimp only
    apply deserializeArr_serializeArr
    · have h1 := colSize_le_binSize (sortDF df) c.1 (List.mem_map_of_mem Prod.fst hc)
      rw [sonGet_nodup _ hnd c hc, makeBsonColumn_size, dtypeOf_mem_nodup _ hnd c hc] at h1
      have h3 := serializeArr_len_npySave c.2 (colVals (sortDF df) c.1)
      omega
    · rw [colVals_length]
      exact hlen
    · intro b hb
      obtain ⟨ch, hch, rfl⟩ := List.mem_map.1 hb
      have h4 := hnul c hc
      rw [List.all_eq_true] at h4
      have h5 := h4 ch hch
      simpa using h5
    · intro v hv
      rw [colVals_eq] at hv
      obtain ⟨r, hr, rfl⟩ := List.mem_map.1 hv
      obtain ⟨hl, _, _, hcells⟩ := rowOk_parts _ _ (hrows r hr)
      obtain ⟨j, hj, hcj⟩ := List.getElem_of_mem hc
      have hfi : (sortDF df).cols.findIdx (fun p => p.1 == c.1) = j := by
        rw [← hcj]
        exact findIdx_nodup _ hnd j hj
      rw [hfi, ← hcj]
      exact zip_all_getD _ r.2 j hj hcells (by rw [hl])
  unfold readDoc
  rw [hidxdec]
  dsimp only
  rw [hcoldec]
  dsimp only
  rw [valAsInt_map_vInt]
  rw [if_pos ?hcnd]
  case hcnd =>
    rw [List.all_eq_true]
    intro p hp
    obtain ⟨c, hc, rfl⟩ := List.mem_map.1 hp
    simp [colVals_length]
  rw [hcols, sonColumns_nodup _ hnd]
  have ec : (((sortDF df).cols.map (fun c =>
      (c.1, makeBsonColumn (dtypeOf (sortDF df) c.1) (colVals (sortDF df) c.1)))).map Prod.fst).zip
      ((((sortDF df).cols.map (fun c => (c.2, colVals (sortDF df) c.1)))).map Prod.fst) =
      (sortDF df).cols := by
    rw [List.map_map, List.map_map]
    rw [List.zip_map']
    have e3 : ((sortDF df).cols.map (fun c =>
        ((Prod.fst ∘ fun c => (c.1, makeBsonColumn (dtypeOf (sortDF df) c.1)
          (colVals (sortDF df) c.1))) c,
         (Prod.fst ∘ fun c => (c.2, colVals (sortDF df) c.1)) c))) =
        (sortDF df).cols.map id := by
      apply List.map_congr_left
      intro c _
      rfl
    rw [e3, List.map_id]
  rw [ec]
  have er : mkRows ((sortDF df).rows.map Prod.fst)
      (((sortDF df).cols.map (fun c => (c.2, colVals (sortDF df) c.1))).map Prod.snd) =
      (sortDF df).rows := by
    rw [List.map_map]
    have e4 : ((sortDF df).cols.map (Prod.snd ∘ (fun c => (c.2, colVals (sortDF df) c.1)))) =
        (sortDF df).cols.map (fun c => colVals (sortDF df) c.1) := rfl
    rw [e4, colVals_transpose _ hnd]
    apply mkRows_transpose
    intro r hr
    exact (rowOk_parts _ _ (hrows r hr)).1
  rw [er]
  have hone : (("datetime64[ns]" == "datetime64[ns]") : Bool) = true := by decide
  rw [hone]
  have hsdt : (sortDF df).isDatetime = true := hdt
  conv_rhs => rw [show sortDF df = DF.mk (sortDF df).isDatetime (sortDF df).cols
    (sortDF df).rows from rfl, hsdt]

/-! ### Splitter algebra -/

theorem sum_range_if (r q : Nat) : ∀ (n : Nat),
    ((List.range n).map (fun i => if i < r then q + 1 else q)).sum = n * q + min r n := by
  intro n
  induction n with
  | zero => simp
  | succ n ih =>
    rw [List.range_succ, List.map_append, List.sum_append, ih]
    have hm : (n + 1) * q = n * q + q := Nat.succ_mul n q
    by_cases hn : n < r
    · rw [List.map_cons, List.map_nil]
      rw [if_pos hn]
      simp only [List.sum_cons, List.sum_nil]
      omega
    · rw [List.map_cons, List.map_nil]
      rw [if_neg hn]
      simp only [List.sum_cons, List.sum_nil]
      omega

theorem splitSizes_sum (l n : Nat) (h : 0 < n) : (splitSizes l n).sum = l := by
  unfold splitSizes
  rw [sum_range_if]
  have h2 := Nat.div_add_mod l n
  have h3 : l % n < n := Nat.mod_lt l h
  omega

theorem takeChunks_flatten : ∀ (ss : List Nat) (rs : List Row),
    (takeChunks ss rs).flatten = rs.take ss.sum := by
  intro ss
  induction ss with
  | nil => intro rs; simp [takeChunks]
  | cons s ss ih =>
    intro rs
    rw [show takeChunks (s :: ss) rs = rs.take s :: takeChunks ss (rs.drop s) from rfl]
    rw [List.flatten_cons, ih, List.sum_cons, List.take_add]

theorem takeChunks_length : ∀ (ss : List Nat) (rs : List Row),
    (takeChunks ss rs).length = ss.length := by
  intro ss
  induction ss with
  | nil => intro rs; rfl
  | cons s ss ih =>
    intro rs
    rw [show takeChunks (s :: ss) rs = rs.take s :: takeChunks ss (rs.drop s) from rfl]
    rw [List.length_cons, ih, List.length_cons]

theorem takeChunks_mem : ∀ (ss : List Nat) (rs : List Row) (c : List Row),
    c ∈ takeChunks ss rs → c.length ≤ rs.length ∧ ∀ r ∈ c, r ∈ rs := by
  intro ss
  induction ss with
  | nil => intro rs c hc; cases hc
  | cons s ss ih =>
    intro rs c hc
    rw [show takeChunks (s :: ss) rs = rs.take s :: takeChunks ss (rs.drop s) from rfl] at hc
    rcases List.mem_cons.1 hc with h | h
    · subst h
      refine ⟨?_, fun r hr => List.take_subset s rs hr⟩
      rw [List.length_take]
      omega
    · obtain ⟨h1, h2⟩ := ih (rs.drop s) c h
      constructor
      · calc c.length ≤ (rs.drop s).length := h1
          _ ≤ rs.length := by rw [List.length_drop]; omega
      · exact fun r hr => List.drop_subset s rs (h2 r hr)

/-- The facts a successful `split_dataframes` guarantees about its
chunks: at least one chunk, the chunk rows concatenate back to the
original rows in order, and each chunk is the original frame restricted
to a subset of its rows. -/
theorem splitDataframes_ok (df : DF) (size : ℚ) (chunks : List DF)
    (h : splitDataframes df size = .ok chunks) :
    chunks ≠ [] ∧ (chunks.map DF.rows).flatten = df.rows ∧
    ∀ c ∈ chunks, c.isDatetime = df.isDatetime ∧ c.cols = df.cols ∧
      c.rows.length ≤ df.rows.length ∧ ∀ r ∈ c.rows, r ∈ df.rows := by
  rw [splitDataframes_eq] at h
  split at h
  · exact Except.noConfusion h
  · rename_i hpos
    simp only [Except.ok.injEq] at h
    subst h
    have hn : 0 < ((memUsage df : ℚ) / size).ceil.toNat := by omega
    refine ⟨?_, ?_, ?_⟩
    · intro hnil
      have hlen := congrArg List.length hnil
      rw [List.length_map, takeChunks_length, List.length_nil] at hlen
      unfold splitSizes at hlen
      rw [List.length_map, List.length_range] at hlen
      omega
    · rw [List.map_map]
      have e : (DF.rows ∘ (fun rs => { df with rows := rs })) = id := rfl
      rw [e, List.map_id, takeChunks_flatten, splitSizes_sum _ _ hn, List.take_length]
    · intro c hc
      obtain ⟨rs, hrs, rfl⟩ := List.mem_map.1 hc
      obtain ⟨h1, h2⟩ := takeChunks_mem _ _ _ hrs
      exact ⟨rfl, rfl, h1, h2⟩

theorem wf_of_parts (df c : DF) (hwf : df.wf = true) (hdt : c.isDatetime = df.isDatetime)
    (hcols : c.cols = df.cols) (hlen : c.rows.length ≤ df.rows.length)
    (hmem : ∀ r ∈ c.rows, r ∈ df.rows) : c.wf = true := by
  have h := wf_rows_congr df c.rows hwf hlen hmem
  have e : c = DF.mk df.isDatetime df.cols c.rows := by
    rw [show c = DF.mk c.isDatetime c.cols c.rows from rfl, hdt, hcols]
  rw [e]
  exact h

theorem dotFree_of_cols (df c : DF) (hcols : c.cols = df.cols) (h : dotFree df = true) :
    dotFree c = true := by
  show ((c.cols.map Prod.fst).all fun nm => removeDots nm == nm) = true
  rw [hcols]
  exact h

/-! ### Reading back every document the chunk loop produced -/

theorem exbind_ok {α β : Type} (a : α) (f : α → Except Err β) :
    Except.bind (Except.ok a) f = f a := rfl

theorem readAll_cons (d : Doc) (ds : List Doc) :
    readAll (d :: ds) =
      Except.bind (readDoc d) (fun t => Except.bind (readAll ds) (fun ts => pure (t :: ts))) := rfl

theorem processChunks_ok_readAll (uid : String) (meta : Meta) :
    ∀ (chunks : List DF) (docs : List Doc),
    (∀ c ∈ chunks, c.wf = true) → (∀ c ∈ chunks, dotFree c = true) →
    processChunks uid meta chunks = .ok docs →
    readAll docs = .ok (chunks.map sortDF) := by
  intro chunks
  induction chunks with
  | nil =>
    intro docs _ _ h
    have h2 : (Except.ok [] : Except Err (List Doc)) = .ok docs := h
    simp only [Except.ok.injEq] at h2
    subst h2
    rfl
  | cons c cs ih =>
    intro docs hwfs hdots h
    rw [processChunks_cons] at h
    cases hmk : makeBsonDoc uid c meta with
    | error e =>
      rw [hmk] at h
      exact Except.noConfusion h
    | ok d =>
      rw [hmk] at h
      have h2 : (processChunks uid meta cs).map (fun ds => d :: ds) = .ok docs := h
      cases hpc : processChunks uid meta cs with
      | error e =>
        rw [hpc] at h2
        exact Except.noConfusion h2
      | ok ds =>
        rw [hpc] at h2
        have h3 : (Except.ok (d :: ds) : Except Err (List Doc)) = .ok docs := h2
        simp only [Except.ok.injEq] at h3
        subst h3
        have hrd := readDoc_makeBsonDoc uid meta c d (hwfs c (List.mem_cons_self c cs))
          (hdots c (List.mem_cons_self c cs)) hmk
        have hra := ih ds (fun x hx => hwfs x (List.mem_cons_of_mem c hx))
          (fun x hx => hdots x (List.mem_cons_of_mem c hx)) hpc
        rw [readAll_cons, hrd, exbind_ok, hra, exbind_ok]
        rfl

/-! ### Concatenation of same-schema tables -/

theorem foldl_union_stable (ns : List String) : ∀ (ls : List (List String)),
    (∀ x ∈ ls, x = ns) →
    ls.foldl (fun acc xs => acc ++ xs.filter (fun n => !(acc.contains n))) ns = ns := by
  intro ls
  induction ls with
  | nil => intro _; rfl
  | cons x ls ih =>
    intro h
    rw [List.foldl_cons, h x (List.mem_cons_self x ls)]
    have hfil : ns.filter (fun n => !(ns.contains n)) = [] := by
      rw [List.filter_eq_nil_iff]
      intro a ha
      simp [ha]
    rw [hfil, List.append_nil]
    exact ih (fun y hy => h y (List.mem_cons_of_mem x hy))

theorem unionNames_const (ns : List String) (ls : List (List String))
    (h : ∀ x ∈ ls, x = ns) (hne : ls ≠ []) : unionNames ls = ns := by
  cases ls with
  | nil => exact absurd rfl hne
  | cons x ls =>
    unfold unionNames
    rw [List.foldl_cons, h x (List.mem_cons_self x ls)]
    have hfirst : ([] : List String) ++ ns.filter (fun n => !(([] : List String).contains n)) =
        ns := by
      rw [List.nil_append]
      exact List.filter_eq_self.2 (fun a _ => rfl)
    rw [hfirst]
    exact foldl_union_stable ns ls (fun y hy => h y (List.mem_cons_of_mem x hy))

/-- `pd.concat` over frames sharing one column schema `C` (unique labels,
full-width rows) degenerates to the plain row stack: no outer-join
padding, no dtype promotion. -/
theorem concatTables_same_schema (C : List (String × String)) (ts : List DF)
    (hne : ts ≠ []) (hC : ∀ t ∈ ts, t.cols = C) (hnd : (C.map Prod.fst).Nodup)
    (hrows : ∀ t ∈ ts, ∀ r ∈ t.rows, r.2.length = C.length) :
    concatTables ts = DF.mk (ts.all DF.isDatetime) C ((ts.map DF.rows)).flatten := by
  have hnames : ∀ t ∈ ts, t.names = C.map Prod.fst := by
    intro t ht
    show t.cols.map Prod.fst = C.map Prod.fst
    rw [hC t ht]
  have hnms : unionNames (ts.map DF.names) = C.map Prod.fst := by
    apply unionNames_const
    · intro x hx
      obtain ⟨t, ht, rfl⟩ := List.mem_map.1 hx
      exact hnames t ht
    · intro hnil
      exact hne (List.map_eq_nil_iff.1 hnil)
  obtain ⟨t0, ts2, rfl⟩ : ∃ t0 ts2, ts = t0 :: ts2 := by
    cases ts with
    | nil => exact absurd rfl hne
    | cons t0 ts2 => exact ⟨t0, ts2, rfl⟩
  have hdty : ∀ t ∈ t0 :: ts2, ∀ c ∈ C, dtypeOf t c.1 = c.2 := by
    intro t ht c hc
    apply dtypeOf_mem_nodup t
    · show (t.cols.map Prod.fst).Nodup
      rw [hC t ht]
      exact hnd
    · rw [hC t ht]
      exact hc
  have hcd : ∀ c ∈ C, concatDtype (t0 :: ts2) c.1 = c.2 := by
    intro c hc
    unfold concatDtype
    have e8 : (((t0 :: ts2).head?.map (fun t1 => dtypeOf t1 c.1)).getD "") =
        dtypeOf t0 c.1 := rfl
    have e9 : (((t0 :: ts2).head?.map (fun t1 => dtypeOf t1 c.1)).getD "float64") =
        dtypeOf t0 c.1 := rfl
    rw [if_pos ?hcnd2]
    case hcnd2 =>
      rw [Bool.and_eq_true, List.all_eq_true, List.all_eq_true]
      constructor
      · intro t ht
        rw [hnames t ht]
        exact List.elem_eq_true_of_mem (List.mem_map_of_mem Prod.fst hc)
      · intro t ht
        rw [beq_iff_eq, e8, hdty t ht c hc, hdty t0 (List.mem_cons_self t0 ts2) c hc]
    rw [e9]
    exact hdty t0 (List.mem_cons_self t0 ts2) c hc
  have hproj : ∀ t ∈ t0 :: ts2, ∀ r ∈ t.rows,
      (C.map Prod.fst).map (fun nm => if t.names.contains nm then
        r.2.getD (t.cols.findIdx (fun p => p.1 == nm)) (Val.vInt 0) else Val.vNaN) = r.2 := by
    intro t ht r hr
    have hlenr : r.2.length = C.length := hrows t ht r hr
    have e5 : (C.map Prod.fst).map (fun nm => if t.names.contains nm then
        r.2.getD (t.cols.findIdx (fun p => p.1 == nm)) (Val.vInt 0) else Val.vNaN) =
        (List.range C.length).map (fun j => r.2.getD j (Val.vInt 0)) := by
      apply List.ext_getElem
      · simp
      · intro j h1 h2
        simp only [List.getElem_map, List.getElem_range]
        have hj : j < C.length := by simpa using h2
        show (if t.names.contains (C[j]).1 = true then
            r.2.getD (t.cols.findIdx (fun p => p.1 == (C[j]).1)) (Val.vInt 0)
          else Val.vNaN) = r.2.getD j (Val.vInt 0)
        have hcontains : t.names.contains (C[j]).1 = true := by
          rw [hnames t ht]
          exact List.elem_eq_true_of_mem (List.mem_map_of_mem Prod.fst (C.getElem_mem hj))
        rw [if_pos hcontains]
        have hfind : t.cols.findIdx (fun p => p.1 == (C[j]).1) = j := by
          rw [hC t ht]
          exact findIdx_nodup C hnd j hj
        rw [hfind]
    rw [e5, ← hlenr]
    exact getD_range r.2 (Val.vInt 0)
  unfold concatTables
  dsimp only
  rw [hnms]
  have hcols2 : (C.map Prod.fst).map (fun nm => (nm, concatDtype (t0 :: ts2) nm)) = C := by
    rw [List.map_map]
    have e6 : ∀ c ∈ C, ((fun nm => (nm, concatDtype (t0 :: ts2) nm)) ∘ Prod.fst) c = id c := by
      intro c hc
      show (c.1, concatDtype (t0 :: ts2) c.1) = c
      rw [hcd c hc]
    rw [List.map_congr_left e6, List.map_id]
  have hrows2 : ((t0 :: ts2).map (fun t => t.rows.map (fun r =>
      (r.1, (C.map Prod.fst).map (fun nm =>
        if t.names.contains nm then
          r.2.getD (t.cols.findIdx (fun p => p.1 == nm)) (Val.vInt 0)
        else Val.vNaN))))).flatten = ((t0 :: ts2).map DF.rows).flatten := by
    apply congrArg List.flatten
    apply List.map_congr_left
    intro t ht
    have e7 : ∀ r ∈ t.rows, (r.1, (C.map Prod.fst).map (fun nm =>
        if t.names.contains nm then
          r.2.getD (t.cols.findIdx (fun p => p.1 == nm)) (Val.vInt 0)
        else Val.vNaN)) = id r := by
      intro r hr
      show _ = r
      rw [hproj t ht r hr]
    rw [List.map_congr_left e7, List.map_id]
  rw [hcols2, hrows2]

/-! ### One step of `make_bson_docs` -/

theorem makeBsonDocs_step (fuel : Nat) (uid : String) (df : DF) (meta : Meta) (size : ℚ) :
    (∀ e, splitDataframes df size = .error e →
      makeBsonDocs (fuel + 1) uid df meta size = .error e) ∧
    (∀ chunks, splitDataframes df size = .ok chunks →
      (∀ ds, processChunks uid meta chunks = .ok ds →
        makeBsonDocs (fuel + 1) uid df meta size = .ok ds) ∧
      (∀ bs r, processChunks uid meta chunks = .error (.invalidBSON bs r) →
        makeBsonDocs (fuel + 1) uid df meta size =
          (if (95 / 100) * (MAX_BSON_SIZE : ℚ) / r > (MAX_BSON_SIZE : ℚ) * (8 / 10) then
            makeBsonDocs fuel uid df meta ((95 / 100) * (MAX_BSON_SIZE : ℚ) / r)
          else .error .assertionError)) ∧
      (∀ e, processChunks uid meta chunks = .error e → (∀ bs r, e ≠ .invalidBSON bs r) →
        makeBsonDocs (fuel + 1) uid df meta size = .error e)) := by
  constructor
  · intro e hsp
    conv_lhs => unfold makeBsonDocs
    rw [hsp]
  · intro chunks hsp
    refine ⟨?_, ?_, ?_⟩
    · intro ds hpc
      conv_lhs => unfold makeBsonDocs
      rw [hsp]
      dsimp only
      rw [hpc]
    · intro bs r hpc
      conv_lhs => unfold makeBsonDocs
      rw [hsp]
      dsimp only
      rw [hpc]
    · intro e hpc hne
      cases e
      case invalidBSON bs r => exact absurd rfl (hne bs r)
      all_goals
        conv_lhs => unfold makeBsonDocs
      all_goals
        rw [hsp]
        dsimp only
        rw [hpc]

/-- C1 (amended): for every wellformed frame with a valid time index and
dot-free column names, the composition `build_dataframe ∘ make_bson_docs`
is the ascending index sort: whenever `make_bson_docs` returns a document
list (under any recursion budget and any split target), `build_dataframe`
of those documents returns exactly the input frame sorted ascending by
index, with column names, dtypes and cell values preserved. -/
theorem split_build_roundtrip : ∀ (fuel : Nat) (uid : String) (df : DF) (meta : Meta)
    (size : ℚ) (docs : List Doc),
    df.wf = true → dotFree df = true →
    makeBsonDocs fuel uid df meta size = .ok docs →
    buildDataframe docs = .ok (sortDF df) := by
  intro fuel
  induction fuel with
  | zero =>
    intro uid df meta size docs _ _ h
    exact Except.noConfusion h
  | succ fuel ih =>
    intro uid df meta size docs hwf hdot h
    cases hsp : splitDataframes df size with
    | error e =>
      rw [(makeBsonDocs_step fuel uid df meta size).1 e hsp] at h
      exact Except.noConfusion h
    | ok chunks =>
      obtain ⟨hstep1, hstep2, hstep3⟩ := (makeBsonDocs_step fuel uid df meta size).2 chunks hsp
      obtain ⟨hcne, hflat, hparts⟩ := splitDataframes_ok df size chunks hsp
      cases hpc : processChunks uid meta chunks with
      | error e =>
        cases e
        case invalidBSON bs r =>
          rw [hstep2 bs r hpc] at h
          by_cases hgt : (95 / 100) * (MAX_BSON_SIZE : ℚ) / r > (MAX_BSON_SIZE : ℚ) * (8 / 10)
          · rw [if_pos hgt] at h
            exact ih uid df meta _ docs hwf hdot h
          · rw [if_neg hgt] at h
            exact Except.noConfusion h
        all_goals
          rw [hstep3 _ hpc (fun bs r hcontra => Err.noConfusion hcontra)] at h
          exact Except.noConfusion h
      | ok ds =>
        rw [hstep1 ds hpc] at h
        have hde : ds = docs := by simpa using h
        subst hde
        have hwfs : ∀ c ∈ chunks, c.wf = true := by
          intro c hc
          obtain ⟨p1, p2, p3, p4⟩ := hparts c hc
          exact wf_of_parts df c hwf p1 p2 p3 p4
        have hdots : ∀ c ∈ chunks, dotFree c = true := by
          intro c hc
          exact dotFree_of_cols df c (hparts c hc).2.1 hdot
        have hra := processChunks_ok_readAll uid meta chunks ds hwfs hdots hpc
        obtain ⟨c0, cr, rfl⟩ : ∃ c0 cr, chunks = c0 :: cr := by
          cases chunks with
          | nil => exact absurd rfl hcne
          | cons c0 cr => exact ⟨c0, cr, rfl⟩
        have hdt : df.isDatetime = true := by
          rw [processChunks_cons] at hpc
          cases hmk : makeBsonDoc uid c0 meta with
          | error e =>
            rw [hmk] at hpc
            exact Except.noConfusion hpc
          | ok d0 =>
            have h1 := (makeBsonDoc_ok uid c0 meta d0 hmk).1
            rw [← (hparts c0 (List.mem_cons_self c0 cr)).1]
            exact h1
        have hCmap : ∀ t ∈ (c0 :: cr).map sortDF, t.cols = df.cols := by
          intro t ht
          obtain ⟨c, hc, rfl⟩ := List.mem_map.1 ht
          rw [sortDF_cols]
          exact (hparts c hc).2.1
        have hndC : (df.cols.map Prod.fst).Nodup := ((wf_iff df).1 hwf).1
        have hrlen : ∀ t ∈ (c0 :: cr).map sortDF, ∀ r ∈ t.rows,
            r.2.length = df.cols.length := by
          intro t ht r hr
          obtain ⟨c, hc, rfl⟩ := List.mem_map.1 ht
          rw [sortDF_rows] at hr
          have hr2 : r ∈ c.rows := (sortRows_perm c.rows).mem_iff.1 hr
          have hr3 : r ∈ df.rows := (hparts c hc).2.2.2 r hr2
          exact (rowOk_parts df.cols r (((wf_iff df).1 hwf).2.2.2 r hr3)).1
        have hcc := concatTables_same_schema df.cols ((c0 :: cr).map sortDF)
          (by simp) hCmap hndC hrlen
        have hall : ((c0 :: cr).map sortDF).all DF.isDatetime = true := by
          rw [List.all_eq_true]
          intro t ht
          obtain ⟨c, hc, rfl⟩ := List.mem_map.1 ht
          show c.isDatetime = true
          rw [(hparts c hc).1]
          exact hdt
        rw [hall] at hcc
        have hrows3 : (((c0 :: cr).map sortDF).map DF.rows).flatten =
            (((c0 :: cr).map DF.rows).map sortRows).flatten := by
          rw [List.map_map, List.map_map]
          rfl
        unfold buildDataframe
        rw [List.map_cons] at hra
        rw [hra]
        dsimp only
        rw [← List.map_cons sortDF c0 cr, hcc, hrows3]
        have hfin : sortDF (DF.mk true df.cols ((((c0 :: cr).map DF.rows).map
            sortRows).flatten)) = DF.mk true df.cols (sortRows df.rows) := by
          unfold sortDF
          dsimp only
          rw [sortRows_flatten_sortRows, hflat]
        rw [hfin]
        have hsd : sortDF df = DF.mk true df.cols (sortRows df.rows) := by
          rw [show sortDF df = DF.mk df.isDatetime df.cols (sortRows df.rows) from rfl, hdt]
        rw [hsd]

/-- Witness for C1: the two-row unsorted frame `dfTwo` splits into one
document and reads back as its ascending sort. -/
theorem split_build_roundtrip_witness :
    dfTwo.wf = true ∧ dotFree dfTwo = true ∧
    makeBsonDocs 1 "u" dfTwo [] defaultMaxSize =
      .ok ((makeBsonDocs 1 "u" dfTwo [] defaultMaxSize).toOption.getD []) ∧
    buildDataframe ((makeBsonDocs 1 "u" dfTwo [] defaultMaxSize).toOption.getD []) =
      .ok (sortDF dfTwo) :=
  ⟨by decide, by decide, by decide,
    split_build_roundtrip 1 "u" dfTwo [] defaultMaxSize
      ((makeBsonDocs 1 "u" dfTwo [] defaultMaxSize).toOption.getD [])
      (by decide) (by decide) (by decide)⟩

/-- Counterexample to C1 as stated: the frame `dfDot` has a valid time
index, yet the round trip returns a frame whose column is named `ab`,
not `a.b` — the builder's dot-stripping rename is baked into the stored
document, so column names are not preserved exactly. -/
theorem roundtrip_dot_counterexample :
    dfDot.isDatetime = true ∧
    makeBsonDocs 1 "u" dfDot [] defaultMaxSize =
      .ok ((makeBsonDocs 1 "u" dfDot [] defaultMaxSize).toOption.getD []) ∧
    buildDataframe ((makeBsonDocs 1 "u" dfDot [] defaultMaxSize).toOption.getD []) =
      .ok (DF.mk true [("ab", "int64")] [(0, [.vInt 2]), (1, [.vInt 4])]) ∧
    DF.mk true [("ab", "int64")] [(0, [.vInt 2]), (1, [.vInt 4])] ≠ sortDF dfDot :=
  ⟨by decide, by decide, by decide, by decide⟩

end Corintick
